import Mathlib

/-!
Verification of the wrts match engine against its natural-language
specification.  Definitions are shallow embeddings of the Rust source in
`src/`:

* `SlotMapState` / `SharedEntityTracking` embed the generation-tagged slot
  allocator (the `slotmap` crate as used by
  `wrts_match/src/networking.rs`, module `shared_entity_tracking`).
  Slot versions are modelled as unbounded naturals; the crate stores them
  as `u32` (odd = occupied, bumped by one on removal, `| 1` on reuse).
* Real-valued game math (`f32`/`f64` in the source) is modelled over `ℝ`.
* `Duration` values are exact in the source (integer nanoseconds), modelled
  as `ℕ`.
-/

/-! ## Entity Synchronization Layer (wrts_match/src/networking.rs:128-189) -/

abbrev Entity := Nat

/-- A slot of the `slotmap::SlotMap`: a version (odd while occupied) and the
stored value (`none` while vacant). -/
structure Slot where
  version : Nat
  value : Option Entity
deriving DecidableEq, Repr

/-- The `SlotMap<InnerSharedId, Entity>` state.  `free` is the intrusive free
list (a stack: `free_head` plus the per-slot `next_free` chain). -/
structure SlotMapState where
  slots : List Slot
  free : List Nat
deriving DecidableEq, Repr

/-- `InnerSharedId` is a slotmap key: (slot index, version).  In the source it
is packed into the `u64` `SharedEntityId` as `(version << 32) | idx`; for
`idx, version < 2^32` that packing is a bijection, so keys are modelled as
the pair directly. -/
abbrev InnerSharedId := Nat × Nat

def emptySlotMap : SlotMapState := ⟨[], []⟩

/-- `SlotMap::get`: the slot at the key's index must exist and its version
must equal the key's version (a vacant slot has an even version and never
matches an issued key after retirement). -/
def SlotMapState.get (sm : SlotMapState) (k : InnerSharedId) : Option Entity :=
  match sm.slots[k.1]? with
  | some s => if s.version = k.2 then s.value else none
  | none => none

/-- `SlotMap::insert`: pop the free list head and reuse that slot with
version `old | 1`, or push a fresh slot with version 1. -/
def SlotMapState.insert (sm : SlotMapState) (e : Entity) :
    InnerSharedId × SlotMapState :=
  match sm.free with
  | i :: rest =>
    match sm.slots[i]? with
    | some s =>
      let v := s.version ||| 1
      ((i, v), ⟨sm.slots.set i ⟨v, some e⟩, rest⟩)
    | none => ((sm.slots.length, 1), ⟨sm.slots ++ [⟨1, some e⟩], i :: rest⟩)
  | [] => ((sm.slots.length, 1), ⟨sm.slots ++ [⟨1, some e⟩], []⟩)

/-- `SlotMap::remove`: on a version match of an occupied slot, bump the
version (making it even) and push the index onto the free list. -/
def SlotMapState.remove (sm : SlotMapState) (k : InnerSharedId) :
    Option (Entity × SlotMapState) :=
  match sm.slots[k.1]? with
  | some s =>
    if s.version = k.2 then
      match s.value with
      | some e => some (e, ⟨sm.slots.set k.1 ⟨s.version + 1, none⟩, k.1 :: sm.free⟩)
      | none => none
    else none
  | none => none

/-- Association-list model of `HashMap<Entity, InnerSharedId>`:
`insert` overwrites an existing binding for the same key. -/
def assocInsert (l : List (Entity × InnerSharedId)) (e : Entity)
    (k : InnerSharedId) : List (Entity × InnerSharedId) :=
  match l with
  | [] => [(e, k)]
  | (e', k') :: rest =>
    if e' = e then (e, k) :: rest else (e', k') :: assocInsert rest e k

def assocLookup (l : List (Entity × InnerSharedId)) (e : Entity) :
    Option InnerSharedId :=
  match l with
  | [] => none
  | (e', k') :: rest => if e' = e then some k' else assocLookup rest e

/-- `HashMap::remove`: drop the binding for `e` (the first one; under the
no-duplicate-keys invariant there is at most one). -/
def assocErase (l : List (Entity × InnerSharedId)) (e : Entity) :
    List (Entity × InnerSharedId) :=
  match l with
  | [] => []
  | (e', k') :: rest => if e' = e then rest else (e', k') :: assocErase rest e

/-- `SharedEntityTracking` (networking.rs:141-144): the slotmap from shared
ids to local entities together with the reverse hash map. -/
structure SharedEntityTracking where
  shared2local : SlotMapState
  local2shared : List (Entity × InnerSharedId)
deriving DecidableEq, Repr

def emptyTracking : SharedEntityTracking := ⟨emptySlotMap, []⟩

/-- networking.rs:155-159. -/
def SharedEntityTracking.insert (t : SharedEntityTracking) (l : Entity) :
    InnerSharedId × SharedEntityTracking :=
  let r := t.shared2local.insert l
  (r.1, ⟨r.2, assocInsert t.local2shared l r.1⟩)

/-- networking.rs:161-165.  The source unwraps the slotmap removal with
`.expect("unreachable")`; on states reachable by the program the removal
always succeeds, and the model returns `none` in the impossible case. -/
def SharedEntityTracking.remove_by_local (t : SharedEntityTracking)
    (l : Entity) : Option ((InnerSharedId × Entity) × SharedEntityTracking) :=
  match assocLookup t.local2shared l with
  | none => none
  | some id =>
    match t.shared2local.remove id with
    | some (_, sm') => some ((id, l), ⟨sm', assocErase t.local2shared l⟩)
    | none => none

/-- networking.rs:167-174. -/
def SharedEntityTracking.remove_by_shared (t : SharedEntityTracking)
    (k : InnerSharedId) : Option ((InnerSharedId × Entity) × SharedEntityTracking) :=
  match t.shared2local.remove k with
  | some (e, sm') => some ((k, e), ⟨sm', assocErase t.local2shared e⟩)
  | none => none

/-- networking.rs:176-180. -/
def SharedEntityTracking.get_by_shared (t : SharedEntityTracking)
    (k : InnerSharedId) : Option Entity :=
  t.shared2local.get k

/-- networking.rs:182-187. -/
def SharedEntityTracking.get_by_local (t : SharedEntityTracking)
    (l : Entity) : Option InnerSharedId :=
  assocLookup t.local2shared l

/-- One operation of the tracking API, for reasoning about operation
sequences. -/
inductive TrackOp where
  | insert (e : Entity)
  | removeByLocal (e : Entity)
  | removeByShared (k : InnerSharedId)
deriving DecidableEq, Repr

def trackStep (t : SharedEntityTracking) : TrackOp → SharedEntityTracking
  | .insert e => (t.insert e).2
  | .removeByLocal e =>
    match t.remove_by_local e with
    | some (_, t') => t'
    | none => t
  | .removeByShared k =>
    match t.remove_by_shared k with
    | some (_, t') => t'
    | none => t

def trackRun (ops : List TrackOp) (t : SharedEntityTracking) :
    SharedEntityTracking :=
  match ops with
  | [] => t
  | op :: rest => trackRun rest (trackStep t op)

/-- A trace is fresh when every inserted local entity is not currently
tracked at the moment of its insertion (true of the program: locals are
freshly spawned Bevy entities, which are never reused). -/
def freshTrace (ops : List TrackOp) (t : SharedEntityTracking) : Bool :=
  match ops with
  | [] => true
  | .insert e :: rest =>
    (t.get_by_local e).isNone && freshTrace rest (trackStep t (.insert e))
  | op :: rest => freshTrace rest (trackStep t op)

/-- `op` retires key `k` when executed in state `t`. -/
def opRemovesKey (t : SharedEntityTracking) (op : TrackOp)
    (k : InnerSharedId) : Prop :=
  match op with
  | .insert _ => False
  | .removeByLocal e => t.get_by_local e = some k
  | .removeByShared k' => k' = k ∧ (t.get_by_shared k).isSome

/-! ## Durations, timers and wire messages

`std::time::Duration` is exact (integer nanoseconds): modelled as `ℕ`.
`bevy::time::Timer` in `TimerMode::Once` clamps its elapsed time at the
duration; `finished` means the elapsed time reached the duration. -/

structure GTimer where
  duration : Nat
  elapsed : Nat
deriving DecidableEq, Repr

def GTimer.finished (t : GTimer) : Bool := t.duration ≤ t.elapsed

def GTimer.remaining (t : GTimer) : Nat := t.duration - t.elapsed

def GTimer.tick (t : GTimer) (delta : Nat) : GTimer :=
  { t with elapsed := min (t.elapsed + delta) t.duration }

def GTimer.reset (t : GTimer) : GTimer := { t with elapsed := 0 }

abbrev ClientId := Nat

/-- `wrts_messaging::SmokeConsumableState` as built by
`send_smoke_consumable_state_updates` (networking.rs:718-734).
`charges_unused` is a `usize` cast to `u16` in the source. -/
inductive SmokeConsumableStateMsg where
  | Deploying (charges_unused : Option Nat) (action_time_remaining : Nat)
  | Recharged (charges_unused : Option Nat)
  | Recharging (charges_unused : Option Nat) (recharge_time_remaining : Nat)
deriving DecidableEq, Repr

/-- The `Match2Client` message constructors the claims are about
(wrts_messaging, shapes pinned by their construction sites in
wrts_match). -/
inductive Match2Client where
  | DestroyEntity (id : InnerSharedId)
  | SetReloadedTorps (id : InnerSharedId) (ready_to_fire : Nat)
      (still_reloading : List Nat)
  | SetSmokeConsumableState (id : InnerSharedId)
      (state : SmokeConsumableStateMsg)
  | SetDetection (id : InnerSharedId) (currently_detected : Bool)
deriving DecidableEq, Repr

/-- An outbound `WrtsMatchMessage`: destination client plus payload. -/
abbrev OutMessage := ClientId × Match2Client

/-! ## Replication of reload and consumable state
(wrts_match/src/networking.rs:672-746, claim C3) -/

/-- The components of a ship relevant to `send_torpedo_reload_updates`:
query `(Entity, &Ship, &Team)`. -/
structure ShipReloadView where
  entity : Entity
  team : ClientId
  hasTorpedoes : Bool
  torpedo_reloads : List GTimer
deriving DecidableEq, Repr

/-- The components of an entity relevant to
`send_smoke_consumable_state_updates`: query
`(Entity, &SmokeConsumableState, Option<&SmokeDeploying>)`.
`team` is the entity's `Team` component; the system never reads it. -/
structure SmokerView where
  entity : Entity
  team : ClientId
  charges_unused : Option Nat
  cooldown_timer : GTimer
  deploying_action_timer : Option GTimer
deriving DecidableEq, Repr

structure ReplicationWorld where
  ships : List ShipReloadView
  smokers : List SmokerView
  clients : List ClientId
  shared : List (Entity × InnerSharedId)
deriving DecidableEq, Repr

/-- `send_torpedo_reload_updates` (networking.rs:672-705): for every ship
with a torpedo battery and a shared id, queue one `SetReloadedTorps` to the
client named by the ship's `Team` — and to no one else. -/
def sendTorpedoReloadUpdates (w : ReplicationWorld) : List OutMessage :=
  w.ships.filterMap fun ship =>
    match assocLookup w.shared ship.entity with
    | none => none
    | some sharedId =>
      if ship.hasTorpedoes then
        let timers := ship.torpedo_reloads
        let ready_to_fire := (timers.filter (·.finished)).length
        let still_reloading :=
          (timers.filterMap fun t =>
            if t.finished then none else some t.remaining).mergeSort (· ≤ ·)
        some (ship.team,
          Match2Client.SetReloadedTorps sharedId ready_to_fire still_reloading)
      else none

/-- The `wrts_messaging::SmokeConsumableState` payload computed at
networking.rs:718-734. -/
def smokeStateOf (sm : SmokerView) : SmokeConsumableStateMsg :=
  let charges_unused := sm.charges_unused.map (· % 65536)
  match sm.deploying_action_timer with
  | some action_timer =>
    SmokeConsumableStateMsg.Deploying charges_unused action_timer.remaining
  | none =>
    if sm.cooldown_timer.finished then
      SmokeConsumableStateMsg.Recharged charges_unused
    else
      SmokeConsumableStateMsg.Recharging charges_unused
        sm.cooldown_timer.remaining

/-- `send_smoke_consumable_state_updates` (networking.rs:707-746): for every
smoker with a shared id, queue one `SetSmokeConsumableState` per connected
client (the loop runs over all `ClientInfo`s, not over the owner). -/
def sendSmokeConsumableStateUpdates (w : ReplicationWorld) : List OutMessage :=
  w.smokers.flatMap fun sm =>
    match assocLookup w.shared sm.entity with
    | none => []
    | some sharedId =>
      w.clients.map fun cl =>
        (cl, Match2Client.SetSmokeConsumableState sharedId (smokeStateOf sm))

/-! ## Networked despawn (wrts_match/src/spawn_entity.rs:18-42, claim C4) -/

/-- An observable action of `DespawnNetworkedEntityCommand::apply`, in
program order: freeing the backing simulation entity
(`world.try_despawn`) or queueing an outbound message (`msgs_tx.send`). -/
inductive DespawnAction where
  | freeEntity (e : Entity)
  | queueMessage (cl : ClientId) (msg : Match2Client)
deriving DecidableEq, Repr

structure DespawnWorld where
  tracking : SharedEntityTracking
  clients : List ClientId
deriving DecidableEq, Repr

/-- `DespawnNetworkedEntityCommand::apply` (spawn_entity.rs:23-41): the
backing entity is despawned first; then the shared id (if any) is retired
and one `DestroyEntity` message per connected client is queued. -/
def despawnNetworkedEntity (w : DespawnWorld) (e : Entity) :
    DespawnWorld × List DespawnAction :=
  match w.tracking.remove_by_local e with
  | none => (w, [DespawnAction.freeEntity e])
  | some ((shared, _), tracking') =>
    ({ w with tracking := tracking' },
      DespawnAction.freeEntity e ::
        w.clients.map fun cl =>
          DespawnAction.queueMessage cl (Match2Client.DestroyEntity shared))

/-! ## Real-valued game math

`f32`/`f64` quantities are modelled over `ℝ` (idealized real arithmetic; in
`ℝ` there are no NaN/infinite values and `x / 0 = 0`).  Vector operations
follow `glam`. -/

open scoped Classical

structure Vec2R where
  x : ℝ
  y : ℝ

structure Vec3R where
  x : ℝ
  y : ℝ
  z : ℝ

noncomputable def Vec2R.add (a b : Vec2R) : Vec2R := ⟨a.x + b.x, a.y + b.y⟩

noncomputable def Vec2R.sub (a b : Vec2R) : Vec2R := ⟨a.x - b.x, a.y - b.y⟩

noncomputable def Vec2R.smul (c : ℝ) (a : Vec2R) : Vec2R := ⟨c * a.x, c * a.y⟩

noncomputable def Vec2R.dot (a b : Vec2R) : ℝ := a.x * b.x + a.y * b.y

/-- `glam::Vec2::perp_dot`. -/
noncomputable def Vec2R.perpDot (a b : Vec2R) : ℝ := a.x * b.y - a.y * b.x

noncomputable def Vec2R.length (a : Vec2R) : ℝ := Real.sqrt (a.x ^ 2 + a.y ^ 2)

noncomputable def Vec2R.normalize (a : Vec2R) : Vec2R :=
  ⟨a.x / a.length, a.y / a.length⟩

noncomputable def Vec2R.distance (a b : Vec2R) : ℝ := (a.sub b).length

/-- `glam::Vec2::rotate`: rotate `b` by the rotation encoded in `a`. -/
noncomputable def Vec2R.rotate (a b : Vec2R) : Vec2R :=
  ⟨a.x * b.x - a.y * b.y, a.y * b.x + a.x * b.y⟩

noncomputable def Vec2R.from_angle (θ : ℝ) : Vec2R := ⟨Real.cos θ, Real.sin θ⟩

/-- `f64::atan2(y, x)`, as the argument of the complex number `x + y i`. -/
noncomputable def atan2 (y x : ℝ) : ℝ := Complex.arg ⟨x, y⟩

/-- `glam::Vec2::angle_to`: signed angle from `a` to `b`,
`atan2(perp_dot, dot)`. -/
noncomputable def Vec2R.angleTo (a b : Vec2R) : ℝ :=
  atan2 (a.perpDot b) (a.dot b)

/-! ## Ballistics Solver (wrts_match/src/math_utils/mod.rs, claims C2/C7/C8) -/

structure TorpedoProblemRes where
  intersection_point : Vec2R
  projectile_dir : Vec2R
  intersection_time : ℝ

/-- `torpedo_problem` (math_utils/mod.rs:68-95): constant-velocity pursuit.
The only early return in the source is `disc < 0`; the root `t` is used
unchecked. -/
noncomputable def torpedo_problem (projectile_start ship_start ship_vel : Vec2R)
    (muzzle_vel : ℝ) : Option TorpedoProblemRes :=
  let p := ship_start.sub projectile_start
  let v := ship_vel
  let s := muzzle_vel
  let disc := (2 * p.x * v.x + 2 * p.y * v.y) ^ 2
    - 4 * (p.x * p.x + p.y * p.y) * (-(s * s) + v.x * v.x + v.y * v.y)
  if disc < 0 then none
  else
    let t_num := -Real.sqrt disc - 2 * p.x * v.x - 2 * p.y * v.y
    let t_den := 2 * (-(s * s) + v.x * v.x + v.y * v.y)
    let t := t_num / t_den
    let intersection_point := ship_start.add (Vec2R.smul t v)
    some ⟨intersection_point, (intersection_point.sub projectile_start).normalize, t⟩

structure BulletProblemRes where
  intersection_point : Vec2R
  intersection_time : ℝ
  intersection_dist : ℝ
  projectile_dir : Vec3R
  projectile_azimuth : ℝ
  projectile_elevation : ℝ

/-- The gravity-drop intercept equation solved by the generated closed form:
`t` is an intercept time iff the target's position at `t` matches the
horizontal distance a shell with total speed `s` and flight time `t` covers,
i.e. `|p + v t|^2 = s^2 t^2 - g^2 t^4 / 4`. -/
noncomputable def interceptPoly (g : ℝ) (p v : Vec2R) (s t : ℝ) : ℝ :=
  (p.x + v.x * t) ^ 2 + (p.y + v.y * t) ^ 2 - (s ^ 2 * t ^ 2 - g ^ 2 * t ^ 4 / 4)

/-- `bullet_problem` (math_utils/mod.rs:113-162), parametrized by the value
`genRoot` returned by `generated_bullet_problem_solution::GENERATED_CODE`
(that generated file is not under `src/`; spec §4.1 describes it as the
closed-form root of the intercept equation, with complex or non-finite
roots discarded).  The source keeps the root iff it `is_finite()` and
`im.abs() <= 0.0000001`; in the real model all values are finite.
The elevation is `asin(g t / (2 s))`, where the Rust `asin` is NaN (and
the subsequent `assert!(elevation.is_finite())` panics) iff its argument
lies outside `[-1, 1]`. -/
noncomputable def bullet_problem (genRoot : ℂ)
    (projectile_start ship_start ship_vel : Vec2R) (muzzle_vel gravity : ℝ) :
    Option BulletProblemRes :=
  let p := ship_start.sub projectile_start
  let v := ship_vel
  if |genRoot.im| ≤ 0.0000001 then
    let t := genRoot.re
    let intersection := p.add (Vec2R.smul t v)
    let azimuth := atan2 intersection.y intersection.x
    let elevation := Real.arcsin (gravity * t / (2 * muzzle_vel))
    let dist := intersection.length
    some ⟨intersection.add projectile_start, t, dist,
      ⟨Real.cos elevation * intersection.normalize.x,
       Real.cos elevation * intersection.normalize.y,
       Real.sin elevation⟩,
      azimuth, elevation⟩
  else none

/-! ## Turret arcs (wrts_match_shared/src/ship_template/mod.rs, claim C9) -/

/-- `AngleRange` (ship_template/mod.rs:294-298).  The source field names are
`from`/`to`; `from` is reserved in Lean. -/
structure AngleRangeR where
  fromDir : Vec2R
  toDir : Vec2R

/-- `vector_is_within_swept_angle` (wrts_match_shared/src/formulas/mod.rs:9-15). -/
def vector_is_within_swept_angle (v fromv tov : Vec2R) : Prop :=
  if fromv.perpDot tov ≥ 0 then
    fromv.perpDot v ≥ 0 ∧ v.perpDot tov ≥ 0
  else
    fromv.perpDot v ≥ 0 ∨ v.perpDot tov ≥ 0

def AngleRangeR.start_dir (r : AngleRangeR) : Vec2R := r.fromDir

def AngleRangeR.end_dir (r : AngleRangeR) : Vec2R := r.toDir

/-- `AngleRange::contains` (ship_template/mod.rs:350-352). -/
def AngleRangeR.contains (r : AngleRangeR) (v : Vec2R) : Prop :=
  vector_is_within_swept_angle v r.fromDir r.toDir

/-- `AngleRange::clamp_angle` (ship_template/mod.rs:356-366). -/
noncomputable def AngleRangeR.clamp_angle (r : AngleRangeR) (v : Vec2R) : Vec2R :=
  if r.contains v then v
  else if |r.fromDir.angleTo v| > |r.toDir.angleTo v| then
    Vec2R.smul v.length r.toDir
  else
    Vec2R.smul v.length r.fromDir

/-! ## Detection Model (wrts_match/src/detection.rs, claim C5) -/

/-- detection.rs:10. -/
noncomputable def MIN_DETECTION : ℝ := 2000

/-- `f32::MAX` = (2 - 2^-23) * 2^127. -/
noncomputable def f32Max : ℝ := 2 ^ 128 - 2 ^ 104

structure CircleR where
  pos : Vec2R
  radius : ℝ

/-- Modelled from the spec: `math_utils::cast_line_segment` and
`math_utils::Circle` are referenced at detection.rs:45-55 but their
definitions are not under `src/`.  Spec §4.3: "Smoke occlusion is tested by
intersecting the line segment between detector and detectee against every
live SmokePuff's circle; any intersection counts as blocked." -/
def segmentIntersectsCircle (a b : Vec2R) (c : CircleR) : Prop :=
  ∃ u : ℝ, 0 ≤ u ∧ u ≤ 1 ∧
    Vec2R.distance (a.add (Vec2R.smul u (b.sub a))) c.pos ≤ c.radius

/-- Modelled from the spec: `cast_line_segment(...).is_some()` — whether the
segment from `a` to `b` hits any smoke-puff circle. -/
def blockedBySmoke (a b : Vec2R) (puffs : List CircleR) : Prop :=
  ∃ c ∈ puffs, segmentIntersectsCircle a b c

/-- `detector_detects_detectee` (detection.rs:36-72). -/
noncomputable def detectorDetectsDetectee (detector_pos pos : Vec2R)
    (base_detection base_detection_when_firing_through_smoke : ℝ)
    (detection_increased_by_firing : Option ℝ)
    (smoke_puffs : List CircleR) : Bool :=
  let blocked_by_smoke := decide (blockedBySmoke detector_pos pos smoke_puffs)
  let detection :=
    match detection_increased_by_firing with
    | some firing_range =>
      if blocked_by_smoke then base_detection_when_firing_through_smoke
      else firing_range
    | none =>
      if blocked_by_smoke then MIN_DETECTION else base_detection
  let detection := max detection MIN_DETECTION
  decide (detector_pos.distance pos ≤ detection)

structure DetectionStatusL where
  is_detected : Bool
  detection_increased_by_firing : GTimer
  detection_increased_by_firing_at_range : ℝ

/-- One row of the `detectees` query of `update_detection`
(detection.rs:76-83): entity, team, transform, base detection, status, and
whether the entity is a ship (with the relevant template field). -/
structure DetecteeView where
  entity : Entity
  team : ClientId
  pos : Vec2R
  base_detection : ℝ
  status : DetectionStatusL
  isShip : Bool
  detection_when_firing_through_smoke : ℝ

/-- One row of the `detectors` query (`(&Team, &Transform)` with
`CanDetect`). -/
structure DetectorView where
  team : ClientId
  pos : Vec2R

structure DetectionWorld where
  detectors : List DetectorView
  detectees : List DetecteeView
  smoke_puffs : List CircleR
  clients : List ClientId
  shared : List (Entity × InnerSharedId)
  delta : Nat

/-- The recomputation of `is_detected` for one detectee
(detection.rs:101-125): tick the firing-boost timer, then test every
opposing detector with `detector_detects_detectee`. -/
noncomputable def detectionNewDetected (w : DetectionWorld) (d : DetecteeView) :
    Bool :=
  let ticked := d.status.detection_increased_by_firing.tick w.delta
  let detection_increased_by_firing := d.isShip && !ticked.finished
  let base_detection_when_firing_through_smoke :=
    if d.isShip then d.detection_when_firing_through_smoke else f32Max
  w.detectors.any fun det =>
    if det.team = d.team then false
    else
      detectorDetectsDetectee det.pos d.pos d.base_detection
        base_detection_when_firing_through_smoke
        (if detection_increased_by_firing then
          some d.status.detection_increased_by_firing_at_range
        else none)
        w.smoke_puffs

/-- The body of `update_detection`'s loop for one detectee
(detection.rs:90-145): recompute `is_detected`, reset the boost timer on
loss of detection, and queue one `SetDetection` per client iff the flag
changed. -/
noncomputable def updateDetectionOne (w : DetectionWorld) (d : DetecteeView) :
    DetecteeView × List OutMessage :=
  let old_is_detected := d.status.is_detected
  let ticked := d.status.detection_increased_by_firing.tick w.delta
  let new_is_detected := detectionNewDetected w d
  let new_timer := if new_is_detected then ticked else ⟨0, 0⟩
  let d' := { d with status := ⟨new_is_detected, new_timer,
    d.status.detection_increased_by_firing_at_range⟩ }
  let msgs :=
    if old_is_detected ≠ new_is_detected then
      match assocLookup w.shared d.entity with
      | some shared =>
        w.clients.map fun cl =>
          (cl, Match2Client.SetDetection shared new_is_detected)
      | none => []
    else []
  (d', msgs)

/-- `update_detection` (detection.rs:74-146) over the whole detectee list;
each detectee is processed independently against the (read-only) detector
and smoke-puff queries. -/
noncomputable def updateDetection (w : DetectionWorld) :
    List DetecteeView × List OutMessage :=
  (w.detectees.map fun d => (updateDetectionOne w d).1,
   w.detectees.flatMap fun d => (updateDetectionOne w d).2)

/-! ## Turret fire gating (wrts_match/src/lib.rs:588-677, claim C6) -/

/-- `TurretAimInfo` (declared in the ship module; variants pinned by
aim_turrets/fire_bullets and spawn_entity.rs:81). -/
inductive TurretAimInfo where
  | NoValidTarget
  | AimingToTarget (target : Entity) (bp : BulletProblemRes)
  | AimedAtTarget (target : Entity) (bp : BulletProblemRes)

structure TurretStateL where
  dir : ℝ
  reload_timer : GTimer
  absolute_pos : Vec2R
  aim_info : TurretAimInfo

/-- The aim-status decision of `aim_turrets` (lib.rs:588-605): the turret
may fire this frame iff the angular error from its (post-traversal) bearing
`new_dir` to the desired bearing `targ_dir` is at most `PI/180` and, when a
firing arc is defined, the bearing lies inside it. -/
noncomputable def turretAimStatus (new_dir targ_dir : Vec2R)
    (firing_angle : Option AngleRangeR) (target : Entity)
    (bp : BulletProblemRes) : TurretAimInfo :=
  let turret_not_aimed := |new_dir.angleTo targ_dir| > Real.pi / 180
  let turret_outside_firing_angle :=
    match firing_angle with
    | some fa => ¬ fa.contains new_dir
    | none => False
  if turret_not_aimed ∨ turret_outside_firing_angle then
    TurretAimInfo.AimingToTarget target bp
  else
    TurretAimInfo.AimedAtTarget target bp

/-- A spawned bullet as far as claim C6 is concerned (the full `Bullet`
construction at lib.rs:652-665 also carries kinematic state and a
randomly dispersed velocity). -/
structure BulletSpawn where
  target : Entity
  damage : ℝ

/-- The per-turret body of `fire_bullets` (lib.rs:629-676): fire iff the aim
status is `AimedAtTarget` and the reload timer has finished; one bullet per
barrel (`0..barrel_count`), then the reload timer resets. -/
noncomputable def fireBulletsTurret (barrel_count : Nat) (damage : ℝ)
    (ts : TurretStateL) : List BulletSpawn × TurretStateL :=
  match ts.aim_info with
  | TurretAimInfo.AimedAtTarget target _bp =>
    if ts.reload_timer.finished then
      ((List.range barrel_count).map fun _ => ⟨target, damage⟩,
        { ts with reload_timer := ts.reload_timer.reset })
    else ([], ts)
  | _ => ([], ts)

/-! ## Projectile collision resolution (wrts_match/src/lib.rs:139-173 and
329-367, claim C10) -/

/-- `Hull` (wrts_match_shared/src/ship_template/mod.rs:208-217). -/
structure HullL where
  hlength : ℝ
  width : ℝ
  freeboard : ℝ
  draft : ℝ

/-- One row of the mutable `ships` query of the collision systems. -/
structure ShipCombat where
  entity : Entity
  team : ClientId
  pos : Vec2R
  rotZ : ℝ
  health : ℝ
  hull : HullL

structure TorpedoInFlight where
  entity : Entity
  team : ClientId
  pos : Vec2R
  damage : ℝ

structure BulletInFlight where
  entity : Entity
  team : ClientId
  pos : Vec3R
  curr_vel : Vec3R
  damage : ℝ

/-- The torpedo-vs-hull test of `collide_torpedoes` (lib.rs:152-159):
the torpedo position in the ship's rotation-corrected local frame must lie
inside the hull's 2D bounding box (`Hull::to_bounds` truncated). -/
noncomputable def torpedoHitsShip (torp : TorpedoInFlight) (ship : ShipCombat) :
    Prop :=
  let ship_rot_inv := Vec2R.from_angle (-ship.rotZ)
  let torp_pos := ship_rot_inv.rotate (torp.pos.sub ship.pos)
  (-(0.5 * ship.hull.hlength) ≤ torp_pos.x ∧ torp_pos.x ≤ 0.5 * ship.hull.hlength ∧
    -(0.5 * ship.hull.width) ≤ torp_pos.y ∧ torp_pos.y ≤ 0.5 * ship.hull.width)

/-- The body of `collide_torpedoes`'s inner loop for one (torpedo, ship)
pair (lib.rs:145-171): skip same-team ships and ships already at
`health <= 0`; on a hull hit subtract damage, queue a despawn of the
torpedo, and queue a despawn of the ship if its health dropped to
`<= 0`. -/
noncomputable def torpedoResolveShip (torp : TorpedoInFlight)
    (ship : ShipCombat) : ShipCombat × List Entity :=
  if torp.team = ship.team then (ship, [])
  else if ship.health ≤ 0 then (ship, [])
  else if torpedoHitsShip torp ship then
    let health' := ship.health - torp.damage
    ({ ship with health := health' },
      torp.entity :: (if health' ≤ 0 then [ship.entity] else []))
  else (ship, [])

/-- One pass of a single torpedo over the (mutably iterated) ship list. -/
noncomputable def collideTorpedoOne (torp : TorpedoInFlight)
    (ships : List ShipCombat) : List ShipCombat × List Entity :=
  (ships.map fun s => (torpedoResolveShip torp s).1,
   ships.flatMap fun s => (torpedoResolveShip torp s).2)

/-- `collide_torpedoes` (lib.rs:139-173): the outer loop runs over
torpedoes; ship health mutations are visible to later iterations.  The
second component collects the entities passed to
`DespawnNetworkedEntityCommand`. -/
noncomputable def collideTorpedoes (ships : List ShipCombat)
    (torps : List TorpedoInFlight) : List ShipCombat × List Entity :=
  torps.foldl
    (fun acc torp =>
      let r := collideTorpedoOne torp acc.1
      (r.1, acc.2 ++ r.2))
    (ships, [])

/-- `ProjectileHitCalc::run` (wrts_match_shared/src/formulas/mod.rs:44-63)
specialized to the match's transforms, which are rotations about Z (set by
`update_ship_velocity` and the spawn commands): the projectile position in
the ship's local frame must lie in the 3D hull box; damage is scaled by
`1.5 +` the alignment of the local velocity with the ship's long axis. -/
noncomputable def projectileHitDamage (ship : ShipCombat) (projectile_pos
    projectile_vel : Vec3R) (projectile_base_damage : ℝ) : Option ℝ :=
  let rot_inv := Vec2R.from_angle (-ship.rotZ)
  let proj_xy := rot_inv.rotate ⟨projectile_pos.x - ship.pos.x,
    projectile_pos.y - ship.pos.y⟩
  if -(0.5 * ship.hull.hlength) ≤ proj_xy.x ∧ proj_xy.x ≤ 0.5 * ship.hull.hlength ∧
      -(0.5 * ship.hull.width) ≤ proj_xy.y ∧ proj_xy.y ≤ 0.5 * ship.hull.width ∧
      -ship.hull.draft ≤ projectile_pos.z ∧ projectile_pos.z ≤ ship.hull.freeboard
  then
    let vel_xy := rot_inv.rotate ⟨projectile_vel.x, projectile_vel.y⟩
    let speed := Real.sqrt (vel_xy.x ^ 2 + vel_xy.y ^ 2 + projectile_vel.z ^ 2)
    let proj_alignment := |vel_xy.x / speed|
    some (projectile_base_damage * (1.5 + proj_alignment))
  else none

/-- The body of `collide_bullets`'s inner loop for one (bullet, ship) pair
(lib.rs:335-365). -/
noncomputable def bulletResolveShip (bullet : BulletInFlight)
    (ship : ShipCombat) : ShipCombat × List Entity :=
  if bullet.team = ship.team then (ship, [])
  else if ship.health ≤ 0 then (ship, [])
  else
    match projectileHitDamage ship bullet.pos bullet.curr_vel bullet.damage with
    | some damage_dealt =>
      let health' := ship.health - damage_dealt
      ({ ship with health := health' },
        bullet.entity :: (if health' ≤ 0 then [ship.entity] else []))
    | none => (ship, [])

noncomputable def collideBulletOne (bullet : BulletInFlight)
    (ships : List ShipCombat) : List ShipCombat × List Entity :=
  (ships.map fun s => (bulletResolveShip bullet s).1,
   ships.flatMap fun s => (bulletResolveShip bullet s).2)

/-- `collide_bullets` (lib.rs:329-367). -/
noncomputable def collideBullets (ships : List ShipCombat)
    (bullets : List BulletInFlight) : List ShipCombat × List Entity :=
  bullets.foldl
    (fun acc bullet =>
      let r := collideBulletOne bullet acc.1
      (r.1, acc.2 ++ r.2))
    (ships, [])

/-! ## Auxiliary definitions used by the theorems -/

/-- The discriminant computed by `torpedo_problem` (math_utils/mod.rs:78-79). -/
noncomputable def torpedoDiscriminant
    (projectile_start ship_start ship_vel : Vec2R) (muzzle_vel : ℝ) : ℝ :=
  let p := ship_start.sub projectile_start
  let v := ship_vel
  let s := muzzle_vel
  (2 * p.x * v.x + 2 * p.y * v.y) ^ 2
    - 4 * (p.x * p.x + p.y * p.y) * (-(s * s) + v.x * v.x + v.y * v.y)

/-- Well-formedness of the slot allocator: occupied slots have odd versions,
free-list entries point at distinct vacant slots. -/
def SlotInv (sm : SlotMapState) : Prop :=
  (∀ s ∈ sm.slots, s.value.isSome = true ↔ s.version % 2 = 1) ∧
  (∀ i ∈ sm.free, ∃ s, sm.slots[i]? = some s ∧ s.value = none) ∧
  sm.free.Nodup

/-- The invariant of `SharedEntityTracking` maintained on fresh traces: the
two directions agree pointwise, entities are tracked at most once, and the
slot allocator is well-formed. -/
def TrackInv (t : SharedEntityTracking) : Prop :=
  (t.local2shared.map Prod.fst).Nodup ∧
  (∀ p ∈ t.local2shared, t.shared2local.get p.2 = some p.1) ∧
  (∀ i s, t.shared2local.slots[i]? = some s → ∀ e, s.value = some e →
    (e, (i, s.version)) ∈ t.local2shared) ∧
  SlotInv t.shared2local

/-- The tracking state after a successful removal of key `k` (stored entity
`e`): the slot's version is bumped past `k.2`, the index returns to the free
list, and the reverse binding is erased. -/
def removedState (t : SharedEntityTracking) (k : InnerSharedId) (e : Entity) :
    SharedEntityTracking :=
  ⟨⟨t.shared2local.slots.set k.1 ⟨k.2 + 1, none⟩, k.1 :: t.shared2local.free⟩,
    assocErase t.local2shared e⟩

/-! ## Theorems -/

/-- Helper: `torpedo_problem` returns `none` exactly when its discriminant is
negative — the sign of the root is never checked. -/
theorem torpedo_problem_none_iff (a b c : Vec2R) (s : ℝ) :
    torpedo_problem a b c s = none ↔ torpedoDiscriminant a b c s < 0 := by
  simp only [torpedo_problem, torpedoDiscriminant]
  split
  · simp_all
  · simp_all

/-- Helper: the intercept time returned by `torpedo_problem` is the raw
quadratic root. -/
theorem torpedo_problem_time (a b c : Vec2R) (s : ℝ)
    (h : ¬ torpedoDiscriminant a b c s < 0) :
    (torpedo_problem a b c s).map TorpedoProblemRes.intersection_time =
      some ((-Real.sqrt (torpedoDiscriminant a b c s)
          - 2 * (b.sub a).x * c.x - 2 * (b.sub a).y * c.y) /
        (2 * (-(s * s) + c.x * c.x + c.y * c.y))) := by
  simp only [torpedo_problem, torpedoDiscriminant] at h ⊢
  rw [if_neg h]
  rfl

/-- C2: refuted.  `torpedo_problem((0,0), (1,0), (2,0), 1)` has discriminant
`4 ≥ 0` and returns `Some` with `intersection_time = -1`, a non-positive
root: the source never checks the sign of the root (math_utils/mod.rs:86 is
a bare `// ...`). -/
theorem C2_counterexample :
    (torpedo_problem ⟨0, 0⟩ ⟨1, 0⟩ ⟨2, 0⟩ 1).map TorpedoProblemRes.intersection_time
        = some (-1) ∧ ¬ ((-1 : ℝ) > 0) := by
  have h4 : Real.sqrt 4 = 2 := by
    rw [show (4 : ℝ) = 2 ^ 2 by norm_num]
    exact Real.sqrt_sq (by norm_num)
  refine ⟨?_, by norm_num⟩
  have hd : ¬ torpedoDiscriminant ⟨0, 0⟩ ⟨1, 0⟩ ⟨2, 0⟩ 1 < 0 := by
    simp only [torpedoDiscriminant, Vec2R.sub]
    norm_num
  rw [torpedo_problem_time _ _ _ _ hd]
  simp only [torpedoDiscriminant, Vec2R.sub]
  norm_num [h4]

/-- C2, amended: `torpedo_problem` returns `None` exactly when the quadratic
discriminant is negative; it performs no positivity check on the
intercept-time root, so a `Some` result may carry a non-positive
`intersection_time`. -/
theorem C2_amended_no_root_sign_check
    (projectile_start ship_start ship_vel : Vec2R) (muzzle_vel : ℝ) :
    torpedo_problem projectile_start ship_start ship_vel muzzle_vel = none
      ↔ torpedoDiscriminant projectile_start ship_start ship_vel muzzle_vel < 0 :=
  torpedo_problem_none_iff projectile_start ship_start ship_vel muzzle_vel

/-- C8: confirmed (over idealized real arithmetic).  When the projectile is
strictly faster than the target, the discriminant is a sum of nonnegative
terms, so `torpedo_problem` always returns `Some`. -/
theorem C8_faster_projectile_always_some
    (projectile_start ship_start ship_vel : Vec2R) (muzzle_vel : ℝ)
    (h : Real.sqrt (ship_vel.x ^ 2 + ship_vel.y ^ 2) < muzzle_vel) :
    (torpedo_problem projectile_start ship_start ship_vel muzzle_vel).isSome
      = true := by
  have hs : 0 < muzzle_vel := lt_of_le_of_lt (Real.sqrt_nonneg _) h
  have hv : ship_vel.x ^ 2 + ship_vel.y ^ 2 < muzzle_vel ^ 2 :=
    (Real.sqrt_lt' hs).mp h
  have hd : ¬ torpedoDiscriminant projectile_start ship_start ship_vel
      muzzle_vel < 0 := by
    simp only [torpedoDiscriminant]
    push_neg
    set p := ship_start.sub projectile_start
    nlinarith [sq_nonneg (2 * p.x * ship_vel.x + 2 * p.y * ship_vel.y),
      sq_nonneg p.x, sq_nonneg p.y,
      mul_nonneg (mul_nonneg (by norm_num : (0:ℝ) ≤ 4) (sq_nonneg p.x))
        (le_of_lt (by nlinarith : (0:ℝ) < muzzle_vel ^ 2
          - (ship_vel.x ^ 2 + ship_vel.y ^ 2)))]
  rcases ho : torpedo_problem projectile_start ship_start ship_vel muzzle_vel with _ | r
  · exact absurd ((torpedo_problem_none_iff _ _ _ _).mp ho) hd
  · rfl

/-- Witness for C8 at a concrete input: a stationary target and unit muzzle
velocity. -/
theorem C8_witness :
    Real.sqrt ((0 : ℝ) ^ 2 + (0 : ℝ) ^ 2) < 1 ∧
      (torpedo_problem ⟨0, 0⟩ ⟨100, 0⟩ ⟨0, 0⟩ 1).isSome = true := by
  have h : Real.sqrt ((0 : ℝ) ^ 2 + (0 : ℝ) ^ 2) < 1 := by
    norm_num
  exact ⟨h, C8_faster_projectile_always_some ⟨0, 0⟩ ⟨100, 0⟩ ⟨0, 0⟩ 1 h⟩

/-- Helper: both arc endpoints, scaled by any nonnegative factor, lie inside
the arc. -/
theorem contains_smul_endpoints (r : AngleRangeR) (c : ℝ) (hc : 0 ≤ c) :
    r.contains (Vec2R.smul c r.toDir) ∧ r.contains (Vec2R.smul c r.fromDir) := by
  unfold AngleRangeR.contains vector_is_within_swept_angle
  simp only [Vec2R.perpDot, Vec2R.smul]
  by_cases h : r.fromDir.x * r.toDir.y - r.fromDir.y * r.toDir.x ≥ 0
  · rw [if_pos h, if_pos h]
    have hp : 0 ≤ c * (r.fromDir.x * r.toDir.y - r.fromDir.y * r.toDir.x) :=
      mul_nonneg hc h
    exact ⟨⟨by nlinarith, by nlinarith⟩, by nlinarith, by nlinarith⟩
  · rw [if_neg h, if_neg h]
    exact ⟨Or.inr (by nlinarith), Or.inl (by nlinarith)⟩

/-- C9: confirmed.  `AngleRange::clamp_angle` is the identity on vectors
already inside the arc; on vectors outside the arc it returns one of the two
arc endpoint directions scaled by the input's length, and that result lies
inside the arc. -/
theorem C9_clamp_angle_endpoints (r : AngleRangeR) (v : Vec2R) :
    (r.contains v → r.clamp_angle v = v) ∧
    (¬ r.contains v →
      (r.clamp_angle v = Vec2R.smul v.length r.toDir ∨
        r.clamp_angle v = Vec2R.smul v.length r.fromDir) ∧
      r.contains (r.clamp_angle v)) := by
  constructor
  · intro h
    unfold AngleRangeR.clamp_angle
    rw [if_pos h]
  · intro h
    have hlen : 0 ≤ v.length := Real.sqrt_nonneg _
    unfold AngleRangeR.clamp_angle
    rw [if_neg h]
    by_cases hb : |r.fromDir.angleTo v| > |r.toDir.angleTo v|
    · rw [if_pos hb]
      exact ⟨Or.inl rfl, (contains_smul_endpoints r v.length hlen).1⟩
    · rw [if_neg hb]
      exact ⟨Or.inr rfl, (contains_smul_endpoints r v.length hlen).2⟩

/-- Witness for C9: the quarter arc from (1,0) to (0,1) contains (1,1), and
clamping (1,1) is a no-op. -/
theorem C9_witness :
    AngleRangeR.contains ⟨⟨1, 0⟩, ⟨0, 1⟩⟩ ⟨1, 1⟩ ∧
      AngleRangeR.clamp_angle ⟨⟨1, 0⟩, ⟨0, 1⟩⟩ ⟨1, 1⟩ = ⟨1, 1⟩ := by
  have h : AngleRangeR.contains ⟨⟨1, 0⟩, ⟨0, 1⟩⟩ ⟨1, 1⟩ := by
    unfold AngleRangeR.contains vector_is_within_swept_angle
    simp only [Vec2R.perpDot]
    norm_num
  exact ⟨h, (C9_clamp_angle_endpoints ⟨⟨1, 0⟩, ⟨0, 1⟩⟩ ⟨1, 1⟩).1 h⟩

/-- C7: confirmed against the spec-modelled root.  `GENERATED_CODE` is
modelled (its file is absent from `src/`) as returning either a genuinely
complex value — which the `im.abs() <= 0.0000001` filter turns into `None`,
never a panic — or an exact real root of the intercept equation; for a real
root the argument of `asin` is bounded by 1 in absolute value, so the Rust
`asin` is finite and the source's `assert!(elevation.is_finite())` cannot
fire. -/
theorem C7_bullet_problem_no_panic (genRoot : ℂ)
    (projectile_start ship_start ship_vel : Vec2R) (muzzle_vel gravity : ℝ)
    (hs : 0 < muzzle_vel)
    (hroot : genRoot.im = 0 →
      interceptPoly gravity (ship_start.sub projectile_start) ship_vel
        muzzle_vel genRoot.re = 0)
    (hexact : |genRoot.im| ≤ 0.0000001 → genRoot.im = 0) :
    (genRoot.im ≠ 0 →
      bullet_problem genRoot projectile_start ship_start ship_vel muzzle_vel
        gravity = none) ∧
    (∀ res,
      bullet_problem genRoot projectile_start ship_start ship_vel muzzle_vel
          gravity = some res →
      |gravity * res.intersection_time / (2 * muzzle_vel)| ≤ 1) := by
  constructor
  · intro him
    unfold bullet_problem
    rw [if_neg]
    intro habs
    exact him (hexact habs)
  · intro res hres
    have habs : |genRoot.im| ≤ 0.0000001 := by
      by_contra habs
      unfold bullet_problem at hres
      rw [if_neg habs] at hres
      exact Option.noConfusion hres
    have him : genRoot.im = 0 := hexact habs
    have ht : res.intersection_time = genRoot.re := by
      unfold bullet_problem at hres
      rw [if_pos habs] at hres
      cases hres
      rfl
    have hpoly := hroot him
    set t := genRoot.re with htdef
    rw [ht]
    set p := ship_start.sub projectile_start
    have key : gravity ^ 2 * t ^ 2 * t ^ 2 ≤ 4 * muzzle_vel ^ 2 * t ^ 2 := by
      unfold interceptPoly at hpoly
      nlinarith [sq_nonneg (p.x + ship_vel.x * t), sq_nonneg (p.y + ship_vel.y * t)]
    have hsq : (gravity * t / (2 * muzzle_vel)) ^ 2 ≤ 1 := by
      rw [div_pow, div_le_one (by positivity)]
      rcases eq_or_ne t 0 with ht0 | ht0
      · rw [ht0]
        nlinarith [sq_nonneg (2 * muzzle_vel)]
      · have ht2 : 0 < t ^ 2 := by positivity
        have := le_of_mul_le_mul_right
          (by nlinarith : gravity ^ 2 * t ^ 2 * t ^ 2 ≤ (2 * muzzle_vel) ^ 2 * t ^ 2) ht2
        nlinarith
    exact (sq_le_one_iff_abs_le_one _).mp hsq

/-- Witness for C7: a clearly complex root (imaginary part 1) is surfaced as
`None`. -/
theorem C7_witness :
    bullet_problem ⟨5, 1⟩ ⟨0, 0⟩ ⟨1, 0⟩ ⟨0, 0⟩ 1 0 = none := by
  refine (C7_bullet_problem_no_panic ⟨5, 1⟩ ⟨0, 0⟩ ⟨1, 0⟩ ⟨0, 0⟩ 1 0
    (by norm_num) ?_ ?_).1 ?_
  · intro h
    exact absurd h (by norm_num)
  · intro h
    exact absurd h (by norm_num)
  · norm_num

/-- C6: confirmed.  With the aim status computed by `aim_turrets`'s gating,
`fire_bullets` spawns bullets only when the angular error to the desired
bearing is at most `π/180` (≈1°), the bearing lies inside the firing arc
whenever one is defined, and the reload timer has finished; and when those
conditions hold it emits exactly one bullet per barrel and resets the
reload timer. -/
theorem C6_fire_gating (new_dir targ_dir : Vec2R)
    (firing_angle : Option AngleRangeR) (target : Entity)
    (bp : BulletProblemRes) (dir : ℝ) (reload : GTimer) (absolute_pos : Vec2R)
    (barrel_count : Nat) (damage : ℝ) :
    (((fireBulletsTurret barrel_count damage
        ⟨dir, reload, absolute_pos,
          turretAimStatus new_dir targ_dir firing_angle target bp⟩).1 ≠ []) →
      |new_dir.angleTo targ_dir| ≤ Real.pi / 180 ∧
      (∀ fa, firing_angle = some fa → fa.contains new_dir) ∧
      reload.finished = true) ∧
    ((|new_dir.angleTo targ_dir| ≤ Real.pi / 180 ∧
      (∀ fa, firing_angle = some fa → fa.contains new_dir) ∧
      reload.finished = true) →
      (fireBulletsTurret barrel_count damage
        ⟨dir, reload, absolute_pos,
          turretAimStatus new_dir targ_dir firing_angle target bp⟩).1.length
        = barrel_count ∧
      (fireBulletsTurret barrel_count damage
        ⟨dir, reload, absolute_pos,
          turretAimStatus new_dir targ_dir firing_angle target bp⟩).2.reload_timer
        = reload.reset) := by
  cases firing_angle with
  | none =>
    by_cases hgate : |new_dir.angleTo targ_dir| > Real.pi / 180
    · have hstat : turretAimStatus new_dir targ_dir none target bp =
          TurretAimInfo.AimingToTarget target bp := by
        simp only [turretAimStatus]
        rw [if_pos (Or.inl hgate)]
      refine ⟨fun hne => absurd ?_ hne, fun hc => absurd hc.1 (not_le.mpr hgate)⟩
      rw [hstat]
      rfl
    · have hstat : turretAimStatus new_dir targ_dir none target bp =
          TurretAimInfo.AimedAtTarget target bp := by
        simp only [turretAimStatus]
        rw [if_neg (by simpa using hgate)]
      rw [hstat]
      constructor
      · intro hne
        refine ⟨le_of_not_gt hgate, fun fa hfa => Option.noConfusion hfa, ?_⟩
        by_contra hrel
        exact hne (by simp [fireBulletsTurret, hrel])
      · rintro ⟨_, _, h3⟩
        simp [fireBulletsTurret, h3, GTimer.reset]
  | some fa =>
    by_cases hgate : |new_dir.angleTo targ_dir| > Real.pi / 180 ∨
        ¬ fa.contains new_dir
    · have hstat : turretAimStatus new_dir targ_dir (some fa) target bp =
          TurretAimInfo.AimingToTarget target bp := by
        simp only [turretAimStatus]
        rw [if_pos hgate]
      refine ⟨fun hne => absurd ?_ hne, fun hc => ?_⟩
      · rw [hstat]
        rfl
      · rcases hgate with hg | hg
        · exact absurd hc.1 (not_le.mpr hg)
        · exact absurd (hc.2.1 fa rfl) hg
    · have hstat : turretAimStatus new_dir targ_dir (some fa) target bp =
          TurretAimInfo.AimedAtTarget target bp := by
        simp only [turretAimStatus]
        rw [if_neg hgate]
      push_neg at hgate
      rw [hstat]
      constructor
      · intro hne
        refine ⟨le_of_not_gt (not_lt.mpr hgate.1), ?_, ?_⟩
        · intro fb hfb
          cases hfb
          exact hgate.2
        · by_contra hrel
          exact hne (by simp [fireBulletsTurret, hrel])
      · rintro ⟨_, _, h3⟩
        simp [fireBulletsTurret, h3, GTimer.reset]

/-- Witness for C6: an aligned turret with no firing-arc restriction and a
finished reload timer fires one bullet per barrel and resets its timer. -/
theorem C6_witness :
    (fireBulletsTurret 2 10
      ⟨0, ⟨5, 7⟩, ⟨0, 0⟩,
        turretAimStatus ⟨1, 0⟩ ⟨1, 0⟩ none 3
          ⟨⟨0, 0⟩, 0, 0, ⟨0, 0, 0⟩, 0, 0⟩⟩).1.length = 2 ∧
    (fireBulletsTurret 2 10
      ⟨0, ⟨5, 7⟩, ⟨0, 0⟩,
        turretAimStatus ⟨1, 0⟩ ⟨1, 0⟩ none 3
          ⟨⟨0, 0⟩, 0, 0, ⟨0, 0, 0⟩, 0, 0⟩⟩).2.reload_timer = GTimer.reset ⟨5, 7⟩ := by
  have hangle : Vec2R.angleTo ⟨1, 0⟩ ⟨1, 0⟩ = 0 := by
    unfold Vec2R.angleTo atan2 Vec2R.perpDot Vec2R.dot
    norm_num
    exact Complex.arg_one
  exact C6_fire_gating ⟨1, 0⟩ ⟨1, 0⟩ none 3 ⟨⟨0, 0⟩, 0, 0, ⟨0, 0, 0⟩, 0, 0⟩ 0
    ⟨5, 7⟩ ⟨0, 0⟩ 2 10 |>.2
    ⟨by rw [hangle]; simp [Real.pi_nonneg, le_div_iff₀], fun fa hfa => Option.noConfusion hfa, by decide⟩

/-- C3: refuted for the smoke half.  In a world with clients 0 and 1 and a
single smoker owned by team 0, `send_smoke_consumable_state_updates` queues
a `SetSmokeConsumableState` to client 1 — the opposing client. -/
theorem C3_counterexample :
    (1, Match2Client.SetSmokeConsumableState (0, 1)
        (SmokeConsumableStateMsg.Recharged none)) ∈
      sendSmokeConsumableStateUpdates
        ⟨[], [⟨3, 0, none, ⟨0, 0⟩, none⟩], [0, 1], [(3, (0, 1))]⟩ ∧
    (⟨3, 0, none, ⟨0, 0⟩, none⟩ : SmokerView).team = 0 ∧ (1 : ClientId) ≠ 0 := by
  decide

/-- C3, amended: torpedo reload state is queued only to the owning client
(every `SetReloadedTorps` goes to the team of the ship whose shared id it
carries), but smoke consumable state is broadcast — one
`SetSmokeConsumableState` per connected client, including the opposing
one. -/
theorem C3_amended_reload_private_smoke_broadcast (w : ReplicationWorld) :
    (∀ m ∈ sendTorpedoReloadUpdates w, ∃ ship ∈ w.ships,
      m.1 = ship.team ∧ ∃ k, assocLookup w.shared ship.entity = some k ∧
        ∃ r rem, m.2 = Match2Client.SetReloadedTorps k r rem) ∧
    (∀ sm ∈ w.smokers, ∀ k, assocLookup w.shared sm.entity = some k →
      ∀ cl ∈ w.clients,
        (cl, Match2Client.SetSmokeConsumableState k (smokeStateOf sm)) ∈
          sendSmokeConsumableStateUpdates w) := by
  constructor
  · intro m hm
    unfold sendTorpedoReloadUpdates at hm
    rcases List.mem_filterMap.mp hm with ⟨ship, hship, hf⟩
    refine ⟨ship, hship, ?_⟩
    dsimp only at hf
    split at hf
    · exact Option.noConfusion hf
    · rename_i sharedId hk
      split at hf
      · cases hf
        exact ⟨rfl, sharedId, hk, _, _, rfl⟩
      · exact Option.noConfusion hf
  · intro sm hsm k hk cl hcl
    unfold sendSmokeConsumableStateUpdates
    refine List.mem_flatMap.mpr ⟨sm, hsm, ?_⟩
    rw [hk]
    exact List.mem_map.mpr ⟨cl, hcl, rfl⟩

/-- Witness for C3's amended claim: the broadcast part instantiated in a
two-client world. -/
theorem C3_witness :
    (7, Match2Client.SetSmokeConsumableState (2, 5)
        (smokeStateOf ⟨4, 7, some 1, ⟨9, 0⟩, none⟩)) ∈
      sendSmokeConsumableStateUpdates
        ⟨[], [⟨4, 7, some 1, ⟨9, 0⟩, none⟩], [7, 8], [(4, (2, 5))]⟩ :=
  (C3_amended_reload_private_smoke_broadcast
      ⟨[], [⟨4, 7, some 1, ⟨9, 0⟩, none⟩], [7, 8], [(4, (2, 5))]⟩).2
    ⟨4, 7, some 1, ⟨9, 0⟩, none⟩ (by decide) (2, 5) (by decide) 7 (by decide)

/-- C4: refuted on ordering.  Despawning a tracked entity produces the
action trace `[free entity, queue DestroyEntity → client 10,
queue DestroyEntity → client 20]`: `apply` calls `world.try_despawn` first
(spawn_entity.rs:24) and queues the destroy notifications only afterwards
(spawn_entity.rs:35-40), so the notification is emitted after — not
before — the backing entity is freed. -/
theorem C4_counterexample :
    (despawnNetworkedEntity
        ⟨(SharedEntityTracking.insert emptyTracking 5).2, [10, 20]⟩ 5).2 =
      [DespawnAction.freeEntity 5,
       DespawnAction.queueMessage 10 (Match2Client.DestroyEntity (0, 1)),
       DespawnAction.queueMessage 20 (Match2Client.DestroyEntity (0, 1))] := by
  decide

/-! ### Association-list and slot-allocator helper lemmas -/

theorem or_one_of_even (n : Nat) (h : n % 2 = 0) : n ||| 1 = n + 1 := by
  obtain ⟨m, rfl⟩ : ∃ m, n = 2 * m := ⟨n / 2, by omega⟩
  apply Nat.eq_of_testBit_eq
  intro i
  cases i with
  | zero =>
    rw [Nat.testBit_or]
    simp only [Nat.testBit_zero]
    have h1 : 2 * m % 2 = 0 := by omega
    have h2 : (2 * m + 1) % 2 = 1 := by omega
    simp [h1, h2]
  | succ j =>
    rw [Nat.testBit_or, Nat.testBit_add_one, Nat.testBit_add_one,
      Nat.testBit_add_one]
    have h1 : 2 * m / 2 = m := by omega
    have h2 : (2 * m + 1) / 2 = m := by omega
    have h3 : (1 : Nat) / 2 = 0 := by norm_num
    rw [h1, h2, h3]
    simp

theorem assocLookup_eq_none_iff (l : List (Entity × InnerSharedId))
    (e : Entity) : assocLookup l e = none ↔ e ∉ l.map Prod.fst := by
  induction l with
  | nil => simp [assocLookup]
  | cons p rest ih =>
    obtain ⟨e', k'⟩ := p
    unfold assocLookup
    by_cases h : e' = e
    · subst h
      simp
    · simp [h, ih, Ne.symm h]

theorem mem_of_assocLookup_eq_some {l : List (Entity × InnerSharedId)}
    {e : Entity} {k : InnerSharedId} (h : assocLookup l e = some k) :
    (e, k) ∈ l := by
  induction l with
  | nil => simp [assocLookup] at h
  | cons p rest ih =>
    obtain ⟨e', k'⟩ := p
    unfold assocLookup at h
    by_cases he : e' = e
    · subst he
      rw [if_pos rfl] at h
      cases h
      exact List.mem_cons_self _ _
    · rw [if_neg he] at h
      exact List.mem_cons_of_mem _ (ih h)

theorem assocLookup_eq_some_of_mem {l : List (Entity × InnerSharedId)}
    {e : Entity} {k : InnerSharedId} (hnd : (l.map Prod.fst).Nodup)
    (hm : (e, k) ∈ l) : assocLookup l e = some k := by
  induction l with
  | nil => cases hm
  | cons p rest ih =>
    obtain ⟨e', k'⟩ := p
    simp only [List.map_cons, List.nodup_cons] at hnd
    rcases List.mem_cons.mp hm with heq | hm'
    · cases heq
      unfold assocLookup
      rw [if_pos rfl]
    · unfold assocLookup
      have hne : e' ≠ e := by
        rintro rfl
        exact hnd.1 (List.mem_map_of_mem Prod.fst hm')
      rw [if_neg hne]
      exact ih hnd.2 hm'

theorem assocInsert_eq_append {l : List (Entity × InnerSharedId)} {e : Entity}
    (k : InnerSharedId) (h : e ∉ l.map Prod.fst) :
    assocInsert l e k = l ++ [(e, k)] := by
  induction l with
  | nil => rfl
  | cons p rest ih =>
    obtain ⟨e', k'⟩ := p
    simp only [List.map_cons, List.mem_cons, not_or] at h
    unfold assocInsert
    rw [if_neg (Ne.symm h.1), ih h.2]
    rfl

theorem assocErase_sublist (l : List (Entity × InnerSharedId)) (e : Entity) :
    (assocErase l e).Sublist l := by
  induction l with
  | nil => exact List.Sublist.refl _
  | cons p rest ih =>
    obtain ⟨e', k'⟩ := p
    unfold assocErase
    by_cases h : e' = e
    · rw [if_pos h]
      exact List.sublist_cons_self _ _
    · rw [if_neg h]
      exact ih.cons₂ _

theorem mem_assocErase_iff {l : List (Entity × InnerSharedId)} {e : Entity}
    (hnd : (l.map Prod.fst).Nodup) (p : Entity × InnerSharedId) :
    p ∈ assocErase l e ↔ p ∈ l ∧ p.1 ≠ e := by
  induction l with
  | nil => simp [assocErase]
  | cons q rest ih =>
    obtain ⟨e', k'⟩ := q
    simp only [List.map_cons, List.nodup_cons] at hnd
    unfold assocErase
    by_cases h : e' = e
    · subst h
      rw [if_pos rfl]
      constructor
      · intro hp
        refine ⟨List.mem_cons_of_mem _ hp, fun hpe => ?_⟩
        exact hnd.1 (hpe ▸ List.mem_map_of_mem Prod.fst hp)
      · rintro ⟨hp, hne⟩
        rcases List.mem_cons.mp hp with rfl | hp'
        · exact absurd rfl hne
        · exact hp'
    · rw [if_neg h]
      simp only [List.mem_cons]
      rw [ih hnd.2]
      constructor
      · rintro (rfl | ⟨hp, hne⟩)
        · exact ⟨Or.inl rfl, fun hc => h hc⟩
        · exact ⟨Or.inr hp, hne⟩
      · rintro ⟨rfl | hp, hne⟩
        · exact Or.inl rfl
        · exact Or.inr ⟨hp, hne⟩

theorem slotmap_get_eq_some_iff {sm : SlotMapState} {k : InnerSharedId}
    {e : Entity} :
    sm.get k = some e ↔
      ∃ s, sm.slots[k.1]? = some s ∧ s.version = k.2 ∧ s.value = some e := by
  unfold SlotMapState.get
  rcases h : sm.slots[k.1]? with _ | s
  · simp
  · simp only []
    by_cases hv : s.version = k.2
    · rw [if_pos hv]
      constructor
      · intro hval
        exact ⟨s, rfl, hv, hval⟩
      · rintro ⟨s', hs', hv', hval⟩
        cases hs'
        exact hval
    · rw [if_neg hv]
      constructor
      · intro hval
        exact Option.noConfusion hval
      · rintro ⟨s', hs', hv', hval⟩
        cases hs'
        exact absurd hv' hv

theorem trackInv_insert {t : SharedEntityTracking} {e : Entity}
    (hinv : TrackInv t) (hfresh : t.get_by_local e = none) :
    TrackInv (t.insert e).2 := by
  obtain ⟨⟨slots, free⟩, l2s⟩ := t
  obtain ⟨hnd, hl2s, hs2l, hocc, hfree, hfnd⟩ := hinv
  have hmem : e ∉ l2s.map Prod.fst := (assocLookup_eq_none_iff _ _).mp hfresh
  have happend : assocInsert l2s e = fun k => l2s ++ [(e, k)] :=
    funext fun k => assocInsert_eq_append k hmem
  cases free with
  | nil =>
    unfold SharedEntityTracking.insert SlotMapState.insert
    simp only []
    rw [assocInsert_eq_append _ hmem]
    refine ⟨?_, ?_, ?_, ?_, ?_, ?_⟩
    · rw [List.map_append]
      simp only [List.map_cons, List.map_nil]
      rw [List.nodup_append]
      exact ⟨hnd, List.nodup_singleton e, by
        intro a ha hb
        simp only [List.mem_singleton] at hb
        exact hmem (hb ▸ ha)⟩
    · intro p hp
      rcases List.mem_append.mp hp with hold | hnew
      · have := hl2s p hold
        rcases slotmap_get_eq_some_iff.mp this with ⟨s, hs, hv, hval⟩
        have hlt : p.2.1 < slots.length := (List.getElem?_eq_some.mp hs).1
        apply slotmap_get_eq_some_iff.mpr
        refine ⟨s, ?_, hv, hval⟩
        rw [List.getElem?_append]
        rw [if_pos hlt]
        exact hs
      · simp only [List.mem_singleton] at hnew
        subst hnew
        apply slotmap_get_eq_some_iff.mpr
        refine ⟨⟨1, some e⟩, ?_, rfl, rfl⟩
        rw [List.getElem?_append_right (le_refl _)]
        simp
    · intro i s hs ev hval
      rcases Nat.lt_or_ge i slots.length with hlt | hge
      · rw [List.getElem?_append, if_pos hlt] at hs
        exact List.mem_append_left _ (hs2l i s hs ev hval)
      · rw [List.getElem?_append_right hge] at hs
        have hi : i - slots.length = 0 := by
          rcases Nat.lt_or_ge (i - slots.length) 1 with h1 | h1
          · omega
          · rw [List.getElem?_eq_none (by simpa using h1)] at hs
            exact Option.noConfusion hs
        rw [hi] at hs
        simp only [List.getElem?_cons_zero] at hs
        cases hs
        cases hval
        have : i = slots.length := by omega
        subst this
        exact List.mem_append_right _ (by simp)
    · intro s hs
      rcases List.mem_append.mp hs with hold | hnew
      · exact hocc s hold
      · simp only [List.mem_singleton] at hnew
        subst hnew
        simp
    · intro i hi
      cases hi
    · exact List.nodup_nil
  | cons i rest =>
    obtain ⟨sfree, hsfree, hsval⟩ := hfree i (List.mem_cons_self _ _)
    unfold SharedEntityTracking.insert SlotMapState.insert
    simp only [hsfree]
    have hveven : sfree.version % 2 = 0 := by
      have := hocc sfree (by
        rcases List.getElem?_eq_some.mp hsfree with ⟨hlt, hgs⟩
        exact hgs ▸ List.getElem_mem hlt)
      rw [hsval] at this
      simp at this
      omega
    have hor : sfree.version ||| 1 = sfree.version + 1 :=
      or_one_of_even _ hveven
    have hlt : i < slots.length := (List.getElem?_eq_some.mp hsfree).1
    rw [assocInsert_eq_append _ hmem]
    refine ⟨?_, ?_, ?_, ?_, ?_, ?_⟩
    · rw [List.map_append]
      simp only [List.map_cons, List.map_nil]
      rw [List.nodup_append]
      exact ⟨hnd, List.nodup_singleton e, by
        intro a ha hb
        simp only [List.mem_singleton] at hb
        exact hmem (hb ▸ ha)⟩
    · intro p hp
      rcases List.mem_append.mp hp with hold | hnew
      · have := hl2s p hold
        rcases slotmap_get_eq_some_iff.mp this with ⟨s, hs, hv, hval⟩
        have hne : p.2.1 ≠ i := by
          rintro rfl
          rw [hsfree] at hs
          cases hs
          rw [hval] at hsval
          exact Option.noConfusion hsval
        apply slotmap_get_eq_some_iff.mpr
        refine ⟨s, ?_, hv, hval⟩
        rw [List.getElem?_set_ne (Ne.symm hne)]
        exact hs
      · simp only [List.mem_singleton] at hnew
        subst hnew
        apply slotmap_get_eq_some_iff.mpr
        refine ⟨⟨sfree.version ||| 1, some e⟩, ?_, rfl, rfl⟩
        exact List.getElem?_set_self hlt
    · intro j s hs ev hval
      by_cases hji : i = j
      · subst hji
        rw [List.getElem?_set_self hlt] at hs
        cases hs
        cases hval
        exact List.mem_append_right _ (by simp)
      · rw [List.getElem?_set_ne hji] at hs
        exact List.mem_append_left _ (hs2l j s hs ev hval)
    · intro s hs
      rcases List.mem_or_eq_of_mem_set hs with hold | hnew
      · exact hocc s hold
      · subst hnew
        simp only [Option.isSome_some, true_iff]
        rw [hor]
        omega
    · intro j hj
      simp only [List.nodup_cons] at hfnd
      have hji : j ≠ i := fun hc => hfnd.1 (hc ▸ hj)
      obtain ⟨s', hs', hv'⟩ := hfree j (List.mem_cons_of_mem _ hj)
      refine ⟨s', ?_, hv'⟩
      rw [List.getElem?_set_ne (Ne.symm hji)]
      exact hs'
    · exact (List.nodup_cons.mp hfnd).2

theorem tracking_remove_core {t : SharedEntityTracking} {k : InnerSharedId}
    {e : Entity} (hinv : TrackInv t) (hget : t.shared2local.get k = some e) :
    t.shared2local.remove k = some (e, (removedState t k e).shared2local) ∧
    (e, k) ∈ t.local2shared ∧
    TrackInv (removedState t k e) ∧
    (removedState t k e).get_by_shared k = none ∧
    (removedState t k e).get_by_local e = none := by
  obtain ⟨hnd, hl2s, hs2l, hocc, hfree, hfnd⟩ := hinv
  rcases slotmap_get_eq_some_iff.mp hget with ⟨s, hs, hv, hval⟩
  have hlt : k.1 < t.shared2local.slots.length := (List.getElem?_eq_some.mp hs).1
  have hkodd : k.2 % 2 = 1 := by
    have := hocc s (by
      rcases List.getElem?_eq_some.mp hs with ⟨hl, hg⟩
      exact hg ▸ List.getElem_mem hl)
    rw [hval, hv] at this
    simpa using this
  have hmemk : (e, k) ∈ t.local2shared := by
    have := hs2l k.1 s hs e hval
    rw [hv] at this
    exact this
  have hremove : t.shared2local.remove k =
      some (e, (removedState t k e).shared2local) := by
    unfold SlotMapState.remove
    simp only [hs]
    rw [if_pos hv, hval]
    unfold removedState
    simp only []
    rw [hv]
  have hknotfree : k.1 ∉ t.shared2local.free := by
    intro hkf
    obtain ⟨s', hs', hv'⟩ := hfree k.1 hkf
    rw [hs] at hs'
    cases hs'
    rw [hval] at hv'
    exact Option.noConfusion hv'
  refine ⟨hremove, hmemk, ⟨?_, ?_, ?_, ?_, ?_, ?_⟩, ?_, ?_⟩
  · exact ((assocErase_sublist _ _).map Prod.fst).nodup hnd
  · intro p hp
    unfold removedState at hp
    simp only [] at hp
    rw [mem_assocErase_iff hnd] at hp
    obtain ⟨hpmem, hpne⟩ := hp
    have := hl2s p hpmem
    rcases slotmap_get_eq_some_iff.mp this with ⟨s', hs', hv', hval'⟩
    have hne : p.2.1 ≠ k.1 := by
      rintro hpk
      rw [hpk, hs] at hs'
      cases hs'
      rw [hval] at hval'
      cases hval'
      exact hpne rfl
    apply slotmap_get_eq_some_iff.mpr
    refine ⟨s', ?_, hv', hval'⟩
    unfold removedState
    simp only []
    rw [List.getElem?_set_ne (Ne.symm hne)]
    exact hs'
  · intro j s' hs' ev hval'
    unfold removedState at hs' ⊢
    simp only [] at hs' ⊢
    by_cases hjk : k.1 = j
    · subst hjk
      rw [List.getElem?_set_self hlt] at hs'
      cases hs'
      exact Option.noConfusion hval'
    · rw [List.getElem?_set_ne hjk] at hs'
      have hmem' := hs2l j s' hs' ev hval'
      rw [mem_assocErase_iff hnd]
      refine ⟨hmem', ?_⟩
      intro hev
      subst hev
      have : (j, s'.version) = k := by
        have h1 := assocLookup_eq_some_of_mem hnd hmem'
        have h2 := assocLookup_eq_some_of_mem hnd hmemk
        rw [h1] at h2
        exact Option.some.inj h2
      apply hjk
      rw [show j = (j, s'.version).1 from rfl, this]
  · intro s' hs'
    rcases List.mem_or_eq_of_mem_set hs' with hold | hnew
    · exact hocc s' hold
    · subst hnew
      show false = true ↔ (k.2 + 1) % 2 = 1
      simp only [Bool.false_eq_true, false_iff]
      omega
  · intro j hj
    rcases List.mem_cons.mp hj with rfl | hj'
    · refine ⟨⟨k.2 + 1, none⟩, ?_, rfl⟩
      exact List.getElem?_set_self hlt
    · have hji : j ≠ k.1 := fun hc => hknotfree (hc ▸ hj')
      obtain ⟨s', hs', hv'⟩ := hfree j hj'
      refine ⟨s', ?_, hv'⟩
      unfold removedState
      simp only []
      rw [List.getElem?_set_ne (Ne.symm hji)]
      exact hs'
  · unfold removedState
    simp only []
    rw [List.nodup_cons]
    exact ⟨hknotfree, hfnd⟩
  · unfold SharedEntityTracking.get_by_shared removedState SlotMapState.get
    simp only []
    rw [List.getElem?_set_self hlt]
    simp only []
    rw [if_neg (show (⟨k.2 + 1, none⟩ : Slot).version ≠ k.2 by simp)]
  · unfold SharedEntityTracking.get_by_local removedState
    simp only []
    rw [assocLookup_eq_none_iff]
    intro hc
    rcases List.mem_map.mp hc with ⟨p, hp, hpe⟩
    rw [mem_assocErase_iff hnd] at hp
    exact hp.2 hpe

theorem or_one_of_odd (n : Nat) (h : n % 2 = 1) : n ||| 1 = n := by
  apply Nat.eq_of_testBit_eq
  intro i
  cases i with
  | zero =>
    rw [Nat.testBit_or]
    simp only [Nat.testBit_zero]
    simp [h]
  | succ j =>
    rw [Nat.testBit_or, Nat.testBit_add_one, Nat.testBit_add_one]
    have h3 : (1 : Nat) / 2 = 0 := by norm_num
    rw [h3]
    simp

theorem le_or_one (n : Nat) : n ≤ n ||| 1 := by
  rcases Nat.even_or_odd n with h | h
  · rw [or_one_of_even n (Nat.even_iff.mp h)]
    omega
  · rw [or_one_of_odd n (Nat.odd_iff.mp h)]

theorem slotmap_remove_slots {sm : SlotMapState} {k : InnerSharedId}
    {e : Entity} {sm' : SlotMapState} (h : sm.remove k = some (e, sm')) :
    ∃ sk, sm.slots[k.1]? = some sk ∧ sk.version = k.2 ∧ sk.value = some e ∧
      sm' = ⟨sm.slots.set k.1 ⟨sk.version + 1, none⟩, k.1 :: sm.free⟩ := by
  unfold SlotMapState.remove at h
  rcases hs : sm.slots[k.1]? with _ | sk
  · rw [hs] at h
    exact Option.noConfusion h
  · rw [hs] at h
    simp only [] at h
    by_cases hv : sk.version = k.2
    · rw [if_pos hv] at h
      rcases hval : sk.value with _ | e'
      · rw [hval] at h
        exact Option.noConfusion h
      · rw [hval] at h
        obtain ⟨he, hsm⟩ := Prod.mk.inj (Option.some.inj h)
        subst he
        exact ⟨sk, rfl, hv, hval, hsm.symm⟩
    · rw [if_neg hv] at h
      exact Option.noConfusion h

theorem slotmap_remove_none_of_get_none {sm : SlotMapState} {k : InnerSharedId}
    (h : sm.get k = none) : sm.remove k = none := by
  unfold SlotMapState.get at h
  unfold SlotMapState.remove
  rcases hs : sm.slots[k.1]? with _ | s
  · rfl
  · rw [hs] at h
    simp only [] at h ⊢
    by_cases hv : s.version = k.2
    · rw [if_pos hv] at h ⊢
      rw [h]
    · rw [if_neg hv]

theorem trackInv_empty : TrackInv emptyTracking := by
  refine ⟨?_, ?_, ?_, ?_, ?_, ?_⟩
  · simp [emptyTracking]
  · intro p hp
    cases hp
  · intro i s hs
    simp [emptyTracking, emptySlotMap] at hs
  · intro s hs
    cases hs
  · intro i hi
    cases hi
  · exact List.nodup_nil

theorem remove_by_local_eq_none_of_lookup_none {t : SharedEntityTracking}
    {e : Entity} (h : assocLookup t.local2shared e = none) :
    t.remove_by_local e = none := by
  unfold SharedEntityTracking.remove_by_local
  rw [h]

theorem remove_by_local_eq_some {t : SharedEntityTracking} {e : Entity}
    {k : InnerSharedId} {e' : Entity} {sm' : SlotMapState}
    (h1 : assocLookup t.local2shared e = some k)
    (h2 : t.shared2local.remove k = some (e', sm')) :
    t.remove_by_local e = some ((k, e), ⟨sm', assocErase t.local2shared e⟩) := by
  simp only [SharedEntityTracking.remove_by_local, h1, h2]

theorem remove_by_shared_eq_some {t : SharedEntityTracking}
    {k : InnerSharedId} {e : Entity} {sm' : SlotMapState}
    (h : t.shared2local.remove k = some (e, sm')) :
    t.remove_by_shared k = some ((k, e), ⟨sm', assocErase t.local2shared e⟩) := by
  unfold SharedEntityTracking.remove_by_shared
  rw [h]

theorem trackStep_insert (t : SharedEntityTracking) (e : Entity) :
    trackStep t (TrackOp.insert e) = (t.insert e).2 := rfl

theorem trackStep_removeByLocal_none {t : SharedEntityTracking} {e : Entity}
    (h : t.remove_by_local e = none) :
    trackStep t (TrackOp.removeByLocal e) = t := by
  simp only [trackStep, h]

theorem trackStep_removeByLocal_some {t : SharedEntityTracking} {e : Entity}
    {p : InnerSharedId × Entity} {t' : SharedEntityTracking}
    (h : t.remove_by_local e = some (p, t')) :
    trackStep t (TrackOp.removeByLocal e) = t' := by
  simp only [trackStep, h]

theorem trackStep_removeByShared_none {t : SharedEntityTracking}
    {k : InnerSharedId} (h : t.remove_by_shared k = none) :
    trackStep t (TrackOp.removeByShared k) = t := by
  simp only [trackStep, h]

theorem trackStep_removeByShared_some {t : SharedEntityTracking}
    {k : InnerSharedId} {p : InnerSharedId × Entity} {t' : SharedEntityTracking}
    (h : t.remove_by_shared k = some (p, t')) :
    trackStep t (TrackOp.removeByShared k) = t' := by
  simp only [trackStep, h]

theorem remove_by_shared_eq_none {t : SharedEntityTracking} {k : InnerSharedId}
    (h : t.shared2local.remove k = none) : t.remove_by_shared k = none := by
  unfold SharedEntityTracking.remove_by_shared
  rw [h]

theorem remove_by_local_eq_none_of_remove_none {t : SharedEntityTracking}
    {e : Entity} {k : InnerSharedId}
    (h1 : assocLookup t.local2shared e = some k)
    (h2 : t.shared2local.remove k = none) : t.remove_by_local e = none := by
  simp only [SharedEntityTracking.remove_by_local, h1, h2]

theorem trackInv_step {t : SharedEntityTracking} {op : TrackOp}
    (hinv : TrackInv t)
    (hfresh : ∀ e, op = TrackOp.insert e → t.get_by_local e = none) :
    TrackInv (trackStep t op) := by
  cases op with
  | insert e => exact trackInv_insert hinv (hfresh e rfl)
  | removeByLocal e =>
    rcases hl : assocLookup t.local2shared e with _ | k
    · rw [trackStep_removeByLocal_none (remove_by_local_eq_none_of_lookup_none hl)]
      exact hinv
    · have hmem := mem_of_assocLookup_eq_some hl
      have hget : t.shared2local.get k = some e := hinv.2.1 _ hmem
      have hcore := tracking_remove_core hinv hget
      rw [trackStep_removeByLocal_some (remove_by_local_eq_some hl hcore.1)]
      exact hcore.2.2.1
  | removeByShared k =>
    rcases hget : t.shared2local.get k with _ | e
    · rw [trackStep_removeByShared_none
        (remove_by_shared_eq_none (slotmap_remove_none_of_get_none hget))]
      exact hinv
    · have hcore := tracking_remove_core hinv hget
      rw [trackStep_removeByShared_some (remove_by_shared_eq_some hcore.1)]
      exact hcore.2.2.1

theorem trackInv_run {ops : List TrackOp} {t : SharedEntityTracking}
    (hinv : TrackInv t) (hf : freshTrace ops t = true) :
    TrackInv (trackRun ops t) := by
  induction ops generalizing t with
  | nil => exact hinv
  | cons op rest ih =>
    cases op with
    | insert e =>
      have hf' : ((t.get_by_local e).isNone &&
          freshTrace rest (trackStep t (.insert e))) = true := hf
      simp only [Bool.and_eq_true] at hf'
      exact ih (trackInv_step hinv (fun e' he => by
        cases he
        exact Option.isNone_iff_eq_none.mp hf'.1)) hf'.2
    | removeByLocal e =>
      exact ih (trackInv_step hinv (fun e' he => TrackOp.noConfusion he)) hf
    | removeByShared k =>
      exact ih (trackInv_step hinv (fun e' he => TrackOp.noConfusion he)) hf

theorem trackRun_append (pre suf : List TrackOp) (t : SharedEntityTracking) :
    trackRun (pre ++ suf) t = trackRun suf (trackRun pre t) := by
  induction pre generalizing t with
  | nil => rfl
  | cons op rest ih =>
    simp only [List.cons_append, trackRun]
    exact ih (trackStep t op)

theorem freshTrace_append {pre suf : List TrackOp} {t : SharedEntityTracking}
    (h : freshTrace (pre ++ suf) t = true) :
    freshTrace pre t = true ∧ freshTrace suf (trackRun pre t) = true := by
  induction pre generalizing t with
  | nil => exact ⟨rfl, h⟩
  | cons op rest ih =>
    cases op with
    | insert e =>
      have h' : ((t.get_by_local e).isNone &&
          freshTrace (rest ++ suf) (trackStep t (.insert e))) = true := h
      simp only [Bool.and_eq_true] at h'
      obtain ⟨h1, h2⟩ := ih h'.2
      refine ⟨?_, h2⟩
      show ((t.get_by_local e).isNone &&
        freshTrace rest (trackStep t (.insert e))) = true
      rw [h'.1, h1]
      rfl
    | removeByLocal e =>
      obtain ⟨h1, h2⟩ := ih h
      exact ⟨h1, h2⟩
    | removeByShared k =>
      obtain ⟨h1, h2⟩ := ih h
      exact ⟨h1, h2⟩

theorem slotmap_insert_mono (sm : SlotMapState) (e : Entity) {i : Nat}
    {s : Slot} (hs : sm.slots[i]? = some s) :
    ∃ s', (sm.insert e).2.slots[i]? = some s' ∧ s.version ≤ s'.version := by
  obtain ⟨slots, free⟩ := sm
  have hs' : slots[i]? = some s := hs
  cases free with
  | nil =>
    refine ⟨s, ?_, le_refl _⟩
    show (slots ++ [⟨1, some e⟩])[i]? = some s
    rw [List.getElem?_append, if_pos (List.getElem?_eq_some.mp hs').1]
    exact hs'
  | cons j rest =>
    rcases hjs : slots[j]? with _ | sj
    · refine ⟨s, ?_, le_refl _⟩
      simp only [SlotMapState.insert, hjs]
      rw [List.getElem?_append, if_pos (List.getElem?_eq_some.mp hs').1]
      exact hs'
    · by_cases hij : j = i
      · subst hij
        rw [hjs] at hs'
        cases hs'
        refine ⟨⟨s.version ||| 1, some e⟩, ?_, le_or_one _⟩
        simp only [SlotMapState.insert, hjs]
        exact List.getElem?_set_self (List.getElem?_eq_some.mp hjs).1
      · refine ⟨s, ?_, le_refl _⟩
        simp only [SlotMapState.insert, hjs]
        rw [List.getElem?_set_ne hij]
        exact hs'

theorem slotmap_remove_mono {sm : SlotMapState} {k : InnerSharedId}
    {e : Entity} {sm' : SlotMapState} (h : sm.remove k = some (e, sm'))
    {i : Nat} {s : Slot} (hs : sm.slots[i]? = some s) :
    ∃ s', sm'.slots[i]? = some s' ∧ s.version ≤ s'.version := by
  obtain ⟨sk, hsk, hv, hval, hsm⟩ := slotmap_remove_slots h
  subst hsm
  by_cases hik : k.1 = i
  · subst hik
    rw [hsk] at hs
    cases hs
    refine ⟨⟨s.version + 1, none⟩, ?_, ?_⟩
    · show (sm.slots.set k.1 ⟨s.version + 1, none⟩)[k.1]? = some ⟨s.version + 1, none⟩
      exact List.getElem?_set_self (List.getElem?_eq_some.mp hsk).1
    · show s.version ≤ s.version + 1
      omega
  · refine ⟨s, ?_, le_refl _⟩
    show (sm.slots.set k.1 ⟨sk.version + 1, none⟩)[i]? = some s
    rw [List.getElem?_set_ne hik]
    exact hs

theorem version_mono_step {t : SharedEntityTracking} (op : TrackOp) {i : Nat}
    {s : Slot} (hs : t.shared2local.slots[i]? = some s) :
    ∃ s', (trackStep t op).shared2local.slots[i]? = some s' ∧
      s.version ≤ s'.version := by
  cases op with
  | insert e =>
    rw [trackStep_insert]
    exact slotmap_insert_mono t.shared2local e hs
  | removeByLocal e =>
    rcases hl : assocLookup t.local2shared e with _ | k
    · rw [trackStep_removeByLocal_none (remove_by_local_eq_none_of_lookup_none hl)]
      exact ⟨s, hs, le_refl _⟩
    · rcases hr : t.shared2local.remove k with _ | ⟨er, sm'⟩
      · rw [trackStep_removeByLocal_none
          (remove_by_local_eq_none_of_remove_none hl hr)]
        exact ⟨s, hs, le_refl _⟩
      · rw [trackStep_removeByLocal_some (remove_by_local_eq_some hl hr)]
        exact slotmap_remove_mono hr hs
  | removeByShared k =>
    rcases hr : t.shared2local.remove k with _ | ⟨er, sm'⟩
    · rw [trackStep_removeByShared_none (remove_by_shared_eq_none hr)]
      exact ⟨s, hs, le_refl _⟩
    · rw [trackStep_removeByShared_some (remove_by_shared_eq_some hr)]
      exact slotmap_remove_mono hr hs

theorem version_mono_run (ops : List TrackOp) {t : SharedEntityTracking}
    {i : Nat} {s : Slot} (hs : t.shared2local.slots[i]? = some s) :
    ∃ s', (trackRun ops t).shared2local.slots[i]? = some s' ∧
      s.version ≤ s'.version := by
  induction ops generalizing t s with
  | nil => exact ⟨s, hs, le_refl _⟩
  | cons op rest ih =>
    obtain ⟨s', hs', hle⟩ := version_mono_step op hs
    obtain ⟨s'', hs'', hle'⟩ := ih hs'
    exact ⟨s'', hs'', le_trans hle hle'⟩

theorem bijection_of_trackInv {t : SharedEntityTracking} (hinv : TrackInv t)
    (l : Entity) (k : InnerSharedId) :
    t.get_by_local l = some k ↔ t.get_by_shared k = some l := by
  obtain ⟨hnd, hl2s, hs2l, _⟩ := hinv
  constructor
  · intro h
    exact hl2s _ (mem_of_assocLookup_eq_some h)
  · intro h
    rcases slotmap_get_eq_some_iff.mp h with ⟨s, hs, hv, hval⟩
    have hmem := hs2l k.1 s hs l hval
    rw [hv] at hmem
    exact assocLookup_eq_some_of_mem hnd hmem

/-- C1: refuted as universally stated.  Inserting the same local entity
twice (a sequence the API permits) leaves two live slots mapping to it
while the reverse `HashMap` keeps only the newer binding:
`get_by_shared (0,1) = some 7` but `get_by_local 7 = some (1,1) ≠ some (0,1)`,
so the live pairs are not a bijection. -/
theorem C1_counterexample :
    (trackRun [TrackOp.insert 7, TrackOp.insert 7]
        emptyTracking).get_by_shared (0, 1) = some 7 ∧
    (trackRun [TrackOp.insert 7, TrackOp.insert 7]
        emptyTracking).get_by_local 7 = some (1, 1) ∧
    ¬ (trackRun [TrackOp.insert 7, TrackOp.insert 7]
        emptyTracking).get_by_local 7 = some (0, 1) := by
  decide

/-- C1, amended: for every operation sequence in which each inserted local
entity is fresh (not currently tracked — true of the program, which only
inserts newly spawned Bevy entities), the live (local, shared) pairs form a
bijection at every point, and a shared id retired by either removal
operation resolves to `None` at every later point, even if later inserts
reuse the underlying slot (the reused slot's version is strictly
larger). -/
theorem C1_amended_fresh_tracking_bijection (ops : List TrackOp)
    (hfresh : freshTrace ops emptyTracking = true) :
    (∀ pre suf, ops = pre ++ suf → ∀ l k,
      (trackRun pre emptyTracking).get_by_local l = some k ↔
        (trackRun pre emptyTracking).get_by_shared k = some l) ∧
    (∀ pre op suf, ops = pre ++ op :: suf → ∀ k,
      opRemovesKey (trackRun pre emptyTracking) op k →
        (trackRun ops emptyTracking).get_by_shared k = none) := by
  constructor
  · intro pre suf hsplit l k
    subst hsplit
    have h := freshTrace_append hfresh
    exact bijection_of_trackInv (trackInv_run trackInv_empty h.1) l k
  · intro pre op suf hsplit k hrem
    subst hsplit
    obtain ⟨hf1, hf2⟩ :=
      @freshTrace_append pre (op :: suf) emptyTracking hfresh
    have hinv1 : TrackInv (trackRun pre emptyTracking) :=
      trackInv_run trackInv_empty hf1
    have hstep : ∃ e,
        trackStep (trackRun pre emptyTracking) op =
          removedState (trackRun pre emptyTracking) k e ∧
        (trackRun pre emptyTracking).shared2local.get k = some e := by
      cases op with
      | insert e => exact hrem.elim
      | removeByLocal e =>
        have hl : (trackRun pre emptyTracking).get_by_local e = some k := hrem
        have hmem := mem_of_assocLookup_eq_some hl
        have hget : (trackRun pre emptyTracking).shared2local.get k = some e :=
          hinv1.2.1 _ hmem
        have hcore := tracking_remove_core hinv1 hget
        exact ⟨e,
          trackStep_removeByLocal_some (remove_by_local_eq_some hl hcore.1),
          hget⟩
      | removeByShared k' =>
        have hrem' : k' = k ∧
            ((trackRun pre emptyTracking).get_by_shared k).isSome = true := hrem
        obtain ⟨hk', hsome⟩ := hrem'
        have hk2 := hk'.symm
        subst hk2
        rcases hg : (trackRun pre emptyTracking).get_by_shared k with _ | e
        · rw [hg] at hsome
          exact absurd hsome (by simp)
        · have hcore := tracking_remove_core hinv1 hg
          exact ⟨e,
            trackStep_removeByShared_some (remove_by_shared_eq_some hcore.1),
            hg⟩
    obtain ⟨e, hstep_eq, hget⟩ := hstep
    rcases slotmap_get_eq_some_iff.mp hget with ⟨s, hsk, hv, hval⟩
    have hlt : k.1 < (trackRun pre emptyTracking).shared2local.slots.length :=
      (List.getElem?_eq_some.mp hsk).1
    have hslot : (trackStep (trackRun pre emptyTracking) op).shared2local.slots[k.1]?
        = some ⟨k.2 + 1, none⟩ := by
      rw [hstep_eq]
      unfold removedState
      simp only []
      exact List.getElem?_set_self hlt
    have hrun : trackRun (pre ++ op :: suf) emptyTracking =
        trackRun suf (trackStep (trackRun pre emptyTracking) op) := by
      rw [trackRun_append]
      rfl
    rw [hrun]
    obtain ⟨s'', hs'', hle⟩ := version_mono_run suf hslot
    have hle' : k.2 + 1 ≤ s''.version := hle
    unfold SharedEntityTracking.get_by_shared SlotMapState.get
    rw [hs'']
    show (if s''.version = k.2 then s''.value else none) = none
    rw [if_neg (by omega)]

/-- Witness for the amended C1: insert, remove, and re-insert — the retired
id no longer resolves even though its slot has been reused. -/
theorem C1_witness :
    freshTrace [TrackOp.insert 3, TrackOp.removeByLocal 3, TrackOp.insert 4]
      emptyTracking = true ∧
    (trackRun [TrackOp.insert 3, TrackOp.removeByLocal 3, TrackOp.insert 4]
      emptyTracking).get_by_shared (0, 1) = none := by
  have hf : freshTrace
      [TrackOp.insert 3, TrackOp.removeByLocal 3, TrackOp.insert 4]
      emptyTracking = true := by decide
  refine ⟨hf, ?_⟩
  exact (C1_amended_fresh_tracking_bijection
      [TrackOp.insert 3, TrackOp.removeByLocal 3, TrackOp.insert 4] hf).2
    [TrackOp.insert 3] (TrackOp.removeByLocal 3) [TrackOp.insert 4] rfl (0, 1)
    (show (trackRun [TrackOp.insert 3] emptyTracking).get_by_local 3
        = some (0, 1) by decide)

/-- C4, amended: despawning a tracked entity frees the backing simulation
entity first, then retires its shared id and queues exactly one
`DestroyEntity` message carrying that id to each connected client;
afterwards the id is no longer resolvable through the Entity
Synchronization Layer in either direction. -/
theorem C4_amended_despawn (w : DespawnWorld) (e : Entity) (k : InnerSharedId)
    (hinv : TrackInv w.tracking) (hk : w.tracking.get_by_local e = some k) :
    (despawnNetworkedEntity w e).2 =
      DespawnAction.freeEntity e ::
        w.clients.map (fun cl =>
          DespawnAction.queueMessage cl (Match2Client.DestroyEntity k)) ∧
    (despawnNetworkedEntity w e).1.tracking.get_by_shared k = none ∧
    (despawnNetworkedEntity w e).1.tracking.get_by_local e = none := by
  have hmem := mem_of_assocLookup_eq_some hk
  have hget : w.tracking.shared2local.get k = some e := hinv.2.1 _ hmem
  have hcore := tracking_remove_core hinv hget
  have hrm : w.tracking.remove_by_local e =
      some ((k, e), removedState w.tracking k e) :=
    remove_by_local_eq_some hk hcore.1
  unfold despawnNetworkedEntity
  rw [hrm]
  exact ⟨rfl, hcore.2.2.2.1, hcore.2.2.2.2⟩

/-- Witness for the amended C4 in a two-client world. -/
theorem C4_witness :
    (despawnNetworkedEntity
        ⟨(SharedEntityTracking.insert emptyTracking 6).2, [1, 2]⟩ 6).2 =
      DespawnAction.freeEntity 6 ::
        [1, 2].map (fun cl =>
          DespawnAction.queueMessage cl (Match2Client.DestroyEntity (0, 1))) ∧
    (despawnNetworkedEntity
        ⟨(SharedEntityTracking.insert emptyTracking 6).2, [1, 2]⟩
        6).1.tracking.get_by_shared (0, 1) = none ∧
    (despawnNetworkedEntity
        ⟨(SharedEntityTracking.insert emptyTracking 6).2, [1, 2]⟩
        6).1.tracking.get_by_local 6 = none :=
  C4_amended_despawn ⟨(SharedEntityTracking.insert emptyTracking 6).2, [1, 2]⟩
    6 (0, 1)
    (@trackInv_run [TrackOp.insert 6] emptyTracking trackInv_empty (by decide))
    (by decide)

/-! ### Helper lemmas for the detection claim -/

theorem updateDetectionOne_snd (w : DetectionWorld) (d : DetecteeView) :
    (updateDetectionOne w d).2 =
      if d.status.is_detected ≠ detectionNewDetected w d then
        match assocLookup w.shared d.entity with
        | some shared =>
          w.clients.map fun cl =>
            (cl, Match2Client.SetDetection shared (detectionNewDetected w d))
        | none => []
      else [] := rfl

theorem updateDetectionOne_fst_status (w : DetectionWorld) (d : DetecteeView) :
    (updateDetectionOne w d).1.status.is_detected = detectionNewDetected w d :=
  rfl

theorem updateDetection_snd (w : DetectionWorld) :
    (updateDetection w).2 =
      w.detectees.flatMap fun d => (updateDetectionOne w d).2 := rfl

theorem count_flatMap_of_unique {α β : Type} [BEq β] [LawfulBEq β]
    (l : List α) (f : α → List β) (x : β) (d : α)
    (hd : d ∈ l) (hnd : l.Nodup)
    (hothers : ∀ d' ∈ l, d' ≠ d → (f d').count x = 0) :
    (l.flatMap f).count x = (f d).count x := by
  induction l with
  | nil => cases hd
  | cons a rest ih =>
    rw [List.flatMap_cons, List.count_append]
    rcases List.mem_cons.mp hd with rfl | hd'
    · have hrest : (rest.flatMap f).count x = 0 := by
        rw [List.count_eq_zero]
        intro hmem
        rcases List.mem_flatMap.mp hmem with ⟨d', hd', hx⟩
        have hne : d' ≠ d := fun hc => (List.nodup_cons.mp hnd).1 (hc ▸ hd')
        have h0 := hothers d' (List.mem_cons_of_mem _ hd') hne
        rw [List.count_eq_zero] at h0
        exact h0 hx
      rw [hrest]
      omega
    · have ha : (f a).count x = 0 :=
        hothers a (List.mem_cons_self _ _)
          (fun hc => (List.nodup_cons.mp hnd).1 (hc ▸ hd'))
      rw [ha, ih hd' (List.nodup_cons.mp hnd).2
        (fun d' h1 h2 => hothers d' (List.mem_cons_of_mem _ h1) h2)]
      omega

theorem count_map_setDetection (clients : List ClientId) (hcl : clients.Nodup)
    (k : InnerSharedId) (nb : Bool) (cl : ClientId) (b : Bool) :
    ((clients.map fun c =>
        ((c, Match2Client.SetDetection k nb) : OutMessage)).count
      (cl, Match2Client.SetDetection k b)) =
      if cl ∈ clients ∧ b = nb then 1 else 0 := by
  induction clients with
  | nil => simp
  | cons c rest ih =>
    obtain ⟨hc1, hc2⟩ := List.nodup_cons.mp hcl
    simp only [List.map_cons, List.count_cons, ih hc2]
    by_cases hceq : cl = c
    · subst hceq
      have hnotin : cl ∉ rest := hc1
      by_cases hb : b = nb
      · subst hb
        simp [hnotin]
      · simp [hnotin, hb, Ne.symm hb]
    · by_cases hb : b = nb
      · subst hb
        by_cases hin : cl ∈ rest
        · simp [hin, hceq, Ne.symm hceq]
        · simp [hin, hceq, Ne.symm hceq]
      · simp [hceq, hb, Ne.symm hceq, Ne.symm hb]

/-- C5: confirmed.  For a tracked detectable entity, `update_detection`
queues a `SetDetection` message exactly when the recomputed `is_detected`
flag differs from the previous tick's value, and then exactly once per
connected client — to every client, not just the owner. -/
theorem C5_detection_transition_notifications (w : DetectionWorld)
    (d : DetecteeView) (hd : d ∈ w.detectees) (k : InnerSharedId)
    (hk : assocLookup w.shared d.entity = some k)
    (hnd : (w.detectees.map DetecteeView.entity).Nodup)
    (hvnd : (w.shared.map Prod.snd).Nodup)
    (hcl : w.clients.Nodup) (cl : ClientId) (b : Bool) :
    (updateDetection w).2.count (cl, Match2Client.SetDetection k b) =
      if cl ∈ w.clients ∧ b = detectionNewDetected w d ∧
          detectionNewDetected w d ≠ d.status.is_detected
      then 1 else 0 := by
  rw [updateDetection_snd]
  have hlnd : w.detectees.Nodup := hnd.of_map
  have hinj := List.inj_on_of_nodup_map hnd
  have hsinj := List.inj_on_of_nodup_map hvnd
  have hothers : ∀ d' ∈ w.detectees, d' ≠ d →
      ((updateDetectionOne w d').2).count
        (cl, Match2Client.SetDetection k b) = 0 := by
    intro d' hd' hne
    rw [updateDetectionOne_snd]
    by_cases htr : d'.status.is_detected ≠ detectionNewDetected w d'
    · rw [if_pos htr]
      rcases hk' : assocLookup w.shared d'.entity with _ | k'
      · simp
      · have hkne : k' ≠ k := by
          intro hkk
          subst hkk
          have hm1 := mem_of_assocLookup_eq_some hk
          have hm2 := mem_of_assocLookup_eq_some hk'
          have hpe := hsinj hm2 hm1 rfl
          have hent : d'.entity = d.entity := congrArg Prod.fst hpe
          exact hne (hinj hd' hd hent)
        rw [List.count_eq_zero]
        intro hmem
        rcases List.mem_map.mp hmem with ⟨c', hc', heq⟩
        have h2 : Match2Client.SetDetection k' (detectionNewDetected w d') =
            Match2Client.SetDetection k b := congrArg Prod.snd heq
        rw [Match2Client.SetDetection.injEq] at h2
        exact hkne h2.1
    · rw [if_neg htr]
      simp
  have hcount := count_flatMap_of_unique w.detectees
    (fun d' => (updateDetectionOne w d').2)
    ((cl, Match2Client.SetDetection k b) : OutMessage) d hd hlnd hothers
  rw [hcount]
  show (updateDetectionOne w d).2.count (cl, Match2Client.SetDetection k b) = _
  rw [updateDetectionOne_snd, hk]
  by_cases htr : d.status.is_detected ≠ detectionNewDetected w d
  · rw [if_pos htr]
    show (w.clients.map fun c =>
        ((c, Match2Client.SetDetection k (detectionNewDetected w d)) :
          OutMessage)).count (cl, Match2Client.SetDetection k b) = _
    rw [count_map_setDetection w.clients hcl]
    by_cases hcb : cl ∈ w.clients ∧ b = detectionNewDetected w d
    · rw [if_pos hcb, if_pos ⟨hcb.1, hcb.2, Ne.symm htr⟩]
    · rw [if_neg hcb, if_neg (fun hc => hcb ⟨hc.1, hc.2.1⟩)]
  · rw [if_neg htr]
    have hno : ¬ (cl ∈ w.clients ∧ b = detectionNewDetected w d ∧
        detectionNewDetected w d ≠ d.status.is_detected) := by
      rintro ⟨_, _, hnn⟩
      exact htr (Ne.symm hnn)
    rw [if_neg hno]
    simp

/-- Witness for C5: a previously detected entity with no opposing detectors
transitions to undetected, and exactly one notification is queued to client
0 (and one to client 1). -/
theorem C5_witness :
    (updateDetection
        ⟨[], [⟨5, 0, ⟨0, 0⟩, 2000, ⟨true, ⟨0, 0⟩, 0⟩, false, 0⟩], [], [0, 1],
          [(5, (0, 1))], 16⟩).2.count
      (0, Match2Client.SetDetection (0, 1) false) = 1 := by
  have h := C5_detection_transition_notifications
    ⟨[], [⟨5, 0, ⟨0, 0⟩, 2000, ⟨true, ⟨0, 0⟩, 0⟩, false, 0⟩], [], [0, 1],
      [(5, (0, 1))], 16⟩
    ⟨5, 0, ⟨0, 0⟩, 2000, ⟨true, ⟨0, 0⟩, 0⟩, false, 0⟩
    (List.mem_cons_self _ _) (0, 1) (by decide) (by simp) (by decide)
    (by decide) 0 false
  rw [h, if_pos]
  refine ⟨by simp, rfl, ?_⟩
  show false ≠ true
  simp

/-! ### Helper lemmas for the collision claim -/

theorem torpedoResolveShip_dead (torp : TorpedoInFlight) (ship : ShipCombat)
    (h : ship.health ≤ 0) : torpedoResolveShip torp ship = (ship, []) := by
  unfold torpedoResolveShip
  by_cases ht : torp.team = ship.team
  · rw [if_pos ht]
  · rw [if_neg ht, if_pos h]

theorem bulletResolveShip_dead (bullet : BulletInFlight) (ship : ShipCombat)
    (h : ship.health ≤ 0) : bulletResolveShip bullet ship = (ship, []) := by
  unfold bulletResolveShip
  by_cases ht : bullet.team = ship.team
  · rw [if_pos ht]
  · rw [if_neg ht, if_pos h]

theorem torpedoResolveShip_entity (torp : TorpedoInFlight)
    (ship : ShipCombat) : (torpedoResolveShip torp ship).1.entity = ship.entity := by
  unfold torpedoResolveShip
  by_cases ht : torp.team = ship.team
  · rw [if_pos ht]
  · rw [if_neg ht]
    by_cases hh : ship.health ≤ 0
    · rw [if_pos hh]
    · rw [if_neg hh]
      by_cases hhit : torpedoHitsShip torp ship
      · rw [if_pos hhit]
      · rw [if_neg hhit]

theorem bulletResolveShip_entity (bullet : BulletInFlight)
    (ship : ShipCombat) : (bulletResolveShip bullet ship).1.entity = ship.entity := by
  unfold bulletResolveShip
  by_cases ht : bullet.team = ship.team
  · rw [if_pos ht]
  · rw [if_neg ht]
    by_cases hh : ship.health ≤ 0
    · rw [if_pos hh]
    · rw [if_neg hh]
      rcases projectileHitDamage ship bullet.pos bullet.curr_vel bullet.damage with _ | dmg
      · rfl
      · rfl

theorem torpedoResolveShip_cmds (torp : TorpedoInFlight) (ship : ShipCombat)
    {x : Entity} (hx : x ∈ (torpedoResolveShip torp ship).2) :
    x = torp.entity ∨ x = ship.entity := by
  unfold torpedoResolveShip at hx
  by_cases ht : torp.team = ship.team
  · rw [if_pos ht] at hx
    cases hx
  · rw [if_neg ht] at hx
    by_cases hh : ship.health ≤ 0
    · rw [if_pos hh] at hx
      cases hx
    · rw [if_neg hh] at hx
      by_cases hhit : torpedoHitsShip torp ship
      · rw [if_pos hhit] at hx
        simp only [] at hx
        rcases List.mem_cons.mp hx with rfl | hx'
        · exact Or.inl rfl
        · by_cases hd : ship.health - torp.damage ≤ 0
          · rw [if_pos hd] at hx'
            rcases List.mem_singleton.mp hx' with rfl
            exact Or.inr rfl
          · rw [if_neg hd] at hx'
            cases hx'
      · rw [if_neg hhit] at hx
        cases hx

theorem bulletResolveShip_cmds (bullet : BulletInFlight) (ship : ShipCombat)
    {x : Entity} (hx : x ∈ (bulletResolveShip bullet ship).2) :
    x = bullet.entity ∨ x = ship.entity := by
  unfold bulletResolveShip at hx
  by_cases ht : bullet.team = ship.team
  · rw [if_pos ht] at hx
    cases hx
  · rw [if_neg ht] at hx
    by_cases hh : ship.health ≤ 0
    · rw [if_pos hh] at hx
      cases hx
    · rw [if_neg hh] at hx
      rcases hph : projectileHitDamage ship bullet.pos bullet.curr_vel
        bullet.damage with _ | dmg
      · rw [hph] at hx
        cases hx
      · rw [hph] at hx
        simp only [] at hx
        rcases List.mem_cons.mp hx with rfl | hx'
        · exact Or.inl rfl
        · by_cases hd : ship.health - dmg ≤ 0
          · rw [if_pos hd] at hx'
            rcases List.mem_singleton.mp hx' with rfl
            exact Or.inr rfl
          · rw [if_neg hd] at hx'
            cases hx'

theorem collide_fold_dead {proj : Type}
    (resolve : proj → ShipCombat → ShipCombat × List Entity)
    (pent : proj → Entity)
    (hdead_eq : ∀ p s, s.health ≤ 0 → resolve p s = (s, []))
    (hent : ∀ p s, (resolve p s).1.entity = s.entity)
    (hcmds : ∀ p s x, x ∈ (resolve p s).2 → x = pent p ∨ x = s.entity)
    (projs : List proj) (ships : List ShipCombat) (cmds0 : List Entity)
    (i : Nat) (sh : ShipCombat) (hi : ships[i]? = some sh)
    (hd : sh.health ≤ 0) (hnd : (ships.map ShipCombat.entity).Nodup)
    (hne : ∀ p ∈ projs, pent p ≠ sh.entity) :
    (projs.foldl (fun acc p =>
      ((acc.1.map fun s => (resolve p s).1),
        acc.2 ++ acc.1.flatMap fun s => (resolve p s).2)) (ships, cmds0)).1[i]?
      = some sh ∧
    ((projs.foldl (fun acc p =>
      ((acc.1.map fun s => (resolve p s).1),
        acc.2 ++ acc.1.flatMap fun s => (resolve p s).2))
        (ships, cmds0)).1.map ShipCombat.entity = ships.map ShipCombat.entity) ∧
    (∀ x, x ∈ (projs.foldl (fun acc p =>
      ((acc.1.map fun s => (resolve p s).1),
        acc.2 ++ acc.1.flatMap fun s => (resolve p s).2)) (ships, cmds0)).2 →
      x ∈ cmds0 ∨ x ≠ sh.entity) := by
  induction projs generalizing ships cmds0 with
  | nil => exact ⟨hi, rfl, fun x hx => Or.inl hx⟩
  | cons p rest ih =>
    have hshmem : sh ∈ ships := by
      rcases List.getElem?_eq_some.mp hi with ⟨hl, hg⟩
      exact hg ▸ List.getElem_mem hl
    have hinj := List.inj_on_of_nodup_map hnd
    have hi1 : (ships.map fun s => (resolve p s).1)[i]? = some sh := by
      rw [List.getElem?_map, hi]
      show some ((resolve p sh).1) = some sh
      rw [hdead_eq p sh hd]
    have hmap1 : ((ships.map fun s => (resolve p s).1).map ShipCombat.entity)
        = ships.map ShipCombat.entity := by
      rw [List.map_map]
      exact List.map_congr_left fun s _ => hent p s
    have hnd1 : (((ships.map fun s => (resolve p s).1)).map
        ShipCombat.entity).Nodup := by
      rw [hmap1]
      exact hnd
    have hpass : ∀ x, x ∈ (ships.flatMap fun s => (resolve p s).2) →
        x ≠ sh.entity := by
      intro x hx
      rcases List.mem_flatMap.mp hx with ⟨s, hs, hxs⟩
      rcases hcmds p s x hxs with rfl | rfl
      · exact hne p (List.mem_cons_self _ _)
      · intro hc
        have hseq : s = sh := hinj hs hshmem hc
        subst hseq
        rw [hdead_eq p s hd] at hxs
        cases hxs
    have hrest := ih (ships.map fun s => (resolve p s).1)
      (cmds0 ++ ships.flatMap fun s => (resolve p s).2) hi1 hnd1
      (fun q hq => hne q (List.mem_cons_of_mem _ hq))
    refine ⟨hrest.1, hrest.2.1.trans hmap1, ?_⟩
    intro x hx
    rcases hrest.2.2 x hx with hx0 | hxne
    · rcases List.mem_append.mp hx0 with hc | hp
      · exact Or.inl hc
      · exact Or.inr (hpass x hp)
    · exact Or.inr hxne

/-- C10: confirmed.  A ship whose health is already ≤ 0 at the start of the
collision phase is skipped by both `collide_torpedoes` and
`collide_bullets`: its record is unchanged after both passes, and no
despawn command is queued for its entity by any projectile. -/
theorem C10_dead_ship_immune (ships : List ShipCombat)
    (torps : List TorpedoInFlight) (bullets : List BulletInFlight)
    (i : Nat) (sh : ShipCombat) (hi : ships[i]? = some sh)
    (hdead : sh.health ≤ 0)
    (hnd : (ships.map ShipCombat.entity).Nodup)
    (hnt : ∀ t ∈ torps, t.entity ≠ sh.entity)
    (hnb : ∀ b ∈ bullets, b.entity ≠ sh.entity) :
    (collideBullets (collideTorpedoes ships torps).1 bullets).1[i]? = some sh ∧
    sh.entity ∉ (collideTorpedoes ships torps).2 ∧
    sh.entity ∉ (collideBullets (collideTorpedoes ships torps).1 bullets).2 := by
  have h1 : (collideTorpedoes ships torps).1[i]? = some sh ∧
      ((collideTorpedoes ships torps).1.map ShipCombat.entity =
        ships.map ShipCombat.entity) ∧
      (∀ x, x ∈ (collideTorpedoes ships torps).2 →
        x ∈ ([] : List Entity) ∨ x ≠ sh.entity) :=
    collide_fold_dead torpedoResolveShip TorpedoInFlight.entity
      (fun p s h => torpedoResolveShip_dead p s h)
      (fun p s => torpedoResolveShip_entity p s)
      (fun p s x hx => torpedoResolveShip_cmds p s hx)
      torps ships [] i sh hi hdead hnd hnt
  have hnd1 : ((collideTorpedoes ships torps).1.map ShipCombat.entity).Nodup := by
    rw [h1.2.1]
    exact hnd
  have h2 : (collideBullets (collideTorpedoes ships torps).1 bullets).1[i]?
        = some sh ∧
      ((collideBullets (collideTorpedoes ships torps).1 bullets).1.map
        ShipCombat.entity =
        (collideTorpedoes ships torps).1.map ShipCombat.entity) ∧
      (∀ x, x ∈ (collideBullets (collideTorpedoes ships torps).1 bullets).2 →
        x ∈ ([] : List Entity) ∨ x ≠ sh.entity) :=
    collide_fold_dead bulletResolveShip BulletInFlight.entity
      (fun p s h => bulletResolveShip_dead p s h)
      (fun p s => bulletResolveShip_entity p s)
      (fun p s x hx => bulletResolveShip_cmds p s hx)
      bullets (collideTorpedoes ships torps).1 [] i sh h1.1 hdead hnd1 hnb
  refine ⟨h2.1, ?_, ?_⟩
  · intro hc
    rcases h1.2.2 _ hc with h | h
    · cases h
    · exact h rfl
  · intro hc
    rcases h2.2.2 _ hc with h | h
    · cases h
    · exact h rfl

/-- Witness for C10: a ship at health -1 survives a hostile torpedo pass
untouched and receives no despawn command. -/
theorem C10_witness :
    (collideBullets
        (collideTorpedoes [⟨0, 0, ⟨0, 0⟩, 0, -1, ⟨10, 5, 3, 2⟩⟩]
          [⟨1, 1, ⟨0, 0⟩, 5⟩]).1 []).1[0]?
      = some ⟨0, 0, ⟨0, 0⟩, 0, -1, ⟨10, 5, 3, 2⟩⟩ ∧
    (0 : Entity) ∉
      (collideTorpedoes [⟨0, 0, ⟨0, 0⟩, 0, -1, ⟨10, 5, 3, 2⟩⟩]
        [⟨1, 1, ⟨0, 0⟩, 5⟩]).2 ∧
    (0 : Entity) ∉
      (collideBullets
        (collideTorpedoes [⟨0, 0, ⟨0, 0⟩, 0, -1, ⟨10, 5, 3, 2⟩⟩]
          [⟨1, 1, ⟨0, 0⟩, 5⟩]).1 []).2 :=
  C10_dead_ship_immune [⟨0, 0, ⟨0, 0⟩, 0, -1, ⟨10, 5, 3, 2⟩⟩]
    [⟨1, 1, ⟨0, 0⟩, 5⟩] [] 0 ⟨0, 0, ⟨0, 0⟩, 0, -1, ⟨10, 5, 3, 2⟩⟩ rfl
    (by norm_num)
    (by simp)
    (by intro t ht; rcases List.mem_singleton.mp ht with rfl; simp)
    (by intro b hb; cases hb)
